import Mathlib

set_option maxHeartbeats 1000000

/-!
Verification development for confman (confman.py): a shallow embedding of
the path handling, the filesystem state, the Action classes, and the
ConfigSource orchestrator, together with theorems about the documented
properties.

Modelling notes:
* Paths are component lists with an absolute/relative flag; `normP`,
  `joinP`, `dirOf`, `relP` mirror `os.path.normpath`, `os.path.join`,
  `os.path.dirname` and `os.path.relpath` (for absolute inputs).
* The filesystem is an association list from paths to nodes (regular files
  with string content, or symlinks with a literal target path).  Directory
  creation (`Action._makedirs`) is not modelled: paths are independent
  keys, so `os.makedirs` is a no-op here.
* Regular-expression suffix matchers (`\.copy$`, `\.copyonce$`, `\.empty$`,
  `\.p\.py$`) are modelled as suffix tests on the character list;
  `IgnoreAction.IGNORED.match` (`_|\.git$|\.gitignore$`) anchors at the
  start of the filename, i.e. a leading underscore or the exact names
  `.git` / `.gitignore`.
* The embedded Python script of a `ProgrammableAction` is opaque; its
  observable outcome (per the restricted environment of `get_env`) is
  abstracted by an oracle `String → SRes` mapping script text to one of
  the four Forwarder signals or to normal termination (`noSignal`).
-/

/-- A filesystem path: absolute flag plus the list of components. -/
structure PPath where
  abs : Bool
  comps : List String
deriving DecidableEq, Repr

/-- One folding step of `os.path.normpath`: drop empty and `.` components,
let `..` pop the previous component (kept literally at the front of a
relative path, dropped at the root of an absolute one). -/
def normStep (ab : Bool) (acc : List String) (c : String) : List String :=
  if c = "" ∨ c = "." then acc
  else if c = ".." then
    match acc with
    | [] => if ab then [] else [".."]
    | top :: rest => if top = ".." then ".." :: top :: rest else rest
  else c :: acc

/-- `os.path.normpath` on the component representation. -/
def normP (p : PPath) : PPath :=
  ⟨p.abs, (p.comps.foldl (normStep p.abs) []).reverse⟩

/-- `os.path.join a b`: an absolute second argument wins. -/
def joinP (a b : PPath) : PPath :=
  if b.abs then b else ⟨a.abs, a.comps ++ b.comps⟩

/-- `os.path.dirname` of a path. -/
def dirOf (p : PPath) : PPath := ⟨p.abs, p.comps.dropLast⟩

/-- Length of the common leading run of two component lists. -/
def commonLen : List String → List String → Nat
  | a :: as, b :: bs => if a = b then commonLen as bs + 1 else 0
  | _, _ => 0

/-- `os.path.relpath path start` (both paths absolute): walk up from
`start` to the common ancestor, then down into `path`. -/
def relP (path start : PPath) : PPath :=
  let p := (normP path).comps
  let s := (normP start).comps
  let i := commonLen p s
  ⟨false, List.replicate (s.length - i) ".." ++ p.drop i⟩

/-- An ordinary path component: not empty, not `.`, not `..`. -/
def goodName (s : String) : Prop := s ≠ "" ∧ s ≠ "." ∧ s ≠ ".."

instance : DecidablePred goodName := fun s => by
  unfold goodName; infer_instance

/-- All components of a list are ordinary. -/
def goodComps (l : List String) : Prop := ∀ s ∈ l, goodName s

instance : DecidablePred goodComps := fun l => List.decidableBAll _ l

deriving instance DecidableEq for Except

/-- A filesystem node: a regular file with its content, or a symbolic link
with its literal (possibly relative) target path. -/
inductive FNode where
  | file (content : String)
  | link (target : PPath)
deriving DecidableEq, Repr

/-- The filesystem: an association list from paths to nodes. -/
abbrev FS := List (PPath × FNode)

/-- Node stored at a path (no symlink following), as seen by `os.lstat`. -/
def fsGet : FS → PPath → Option FNode
  | [], _ => none
  | e :: rest, p => if e.1 = p then some e.2 else fsGet rest p

/-- Remove the entry at a path, as `os.unlink`. -/
def fsDel : FS → PPath → FS
  | [], _ => []
  | e :: rest, p => if e.1 = p then fsDel rest p else e :: fsDel rest p

/-- Write a node at a path (creating or replacing). -/
def fsSet (fs : FS) (p : PPath) (n : FNode) : FS := (p, n) :: fsDel fs p

/-- `os.path.lexists`. -/
def lexists (fs : FS) (p : PPath) : Bool := (fsGet fs p).isSome

/-- `os.path.islink`. -/
def islink (fs : FS) (p : PPath) : Bool :=
  match fsGet fs p with
  | some (.link _) => true
  | _ => false

/-- Follow symlinks (with fuel) down to the path of a regular file;
`none` models a missing file or a dangling/cyclic link chain. -/
def resolveFuel : Nat → FS → PPath → Option PPath
  | 0, _, _ => none
  | fuel + 1, fs, p =>
    match fsGet fs p with
    | some (.file _) => some p
    | some (.link t) => resolveFuel fuel fs (normP (joinP (dirOf p) t))
    | none => none

/-- Resolve a path to the regular file it denotes, following links. -/
def presolve (fs : FS) (p : PPath) : Option PPath :=
  resolveFuel (fs.length + 1) fs p

/-- `os.path.exists` (follows symlinks). -/
def pexists (fs : FS) (p : PPath) : Bool := (presolve fs p).isSome

/-- Errors raised by the embedded fragment of confman. -/
inductive Err where
  | actionErr (msg : String)
  | confErr (msg : String)
  | conflictErr (filename : String) (existingSource : Option String)
  | noClassErr (filename : String)
  | notImpl
  | osErr
deriving DecidableEq, Repr

/-- `open(p).read()`, following symlinks; errors when the file is missing
or the link chain is dangling. -/
def readFile (fs : FS) (p : PPath) : Except Err String :=
  match presolve fs p with
  | some q =>
    match fsGet fs q with
    | some (.file c) => .ok c
    | _ => .error .osErr
  | none => .error .osErr

/-- `os.path.samefile a b` (raises when either side does not resolve). -/
def samefileE (fs : FS) (a b : PPath) : Except Err Bool :=
  match presolve fs a, presolve fs b with
  | some pa, some pb => .ok (decide (pa = pb))
  | _, _ => .error .osErr

/-- Human-readable progress lines printed by the actions. -/
inductive Msg where
  | linkAltered
  | linkSameContents
  | createdLink (dest : PPath) (source : PPath)
  | updatedFile (dest : PPath)
  | notUpdated (dest : PPath)
deriving DecidableEq, Repr

/-- Whether a reported line announces a filesystem mutation;
`notUpdated` only reports that nothing was changed. -/
def Msg.isMutation : Msg → Bool
  | .notUpdated _ => false
  | _ => true

/-- The action classes of confman (the registry classes, plus `TextAction`
which is only built as a ProgrammableAction proxy). -/
inductive ACls where
  | programmable
  | ignoreA
  | emptyA
  | copyA
  | copyOnceA
  | symlinkA
  | textA
deriving DecidableEq, Repr

/-- The `ONCE` class attribute of the text-bearing actions. -/
def ACls.once : ACls → Bool
  | .copyOnceA => true
  | .emptyA => true
  | _ => false

/-- A non-programmable action instance: class, relative directory,
source filename (or literal text for `TextAction`), destination filename,
and the `text` attribute set during `check`. -/
structure BAct where
  cls : ACls
  relpath : List String
  source : Option String
  dest : String
  text : Option String := none
deriving DecidableEq, Repr

/-- The `ConfigSource` configuration: source root, destination root and
the ordered action registry (the options bag is only visible to scripts
and is absorbed by the script-outcome oracle). -/
structure Config where
  source : PPath
  dest : PPath
  classes : List ACls
deriving DecidableEq, Repr

/-- `Action.source_path` (with the source filename resolved out of its
`Option`). -/
def BAct.sourcePath (cfg : Config) (a : BAct) (s : String) : PPath :=
  normP (joinP cfg.source ⟨false, a.relpath ++ [s]⟩)

/-- `Action.dest_path`. -/
def BAct.destPath (cfg : Config) (a : BAct) : PPath :=
  normP (joinP cfg.dest ⟨false, a.relpath ++ [a.dest]⟩)

/-- `SymlinkAction.same_contents`: byte equality of the two contents. -/
def sameContents (fs : FS) (source dest : PPath) : Except Err Bool := do
  let s ← readFile fs source
  let d ← readFile fs dest
  .ok (decide (s = d))

/-- `SymlinkAction.check` (`FORCE_SAME` is `True`): the source must exist;
an existing destination must be a link, or a plain file with the same
contents as the source. -/
def SymlinkAction.check (cfg : Config) (fs : FS) (a : BAct) : Except Err BAct :=
  match a.source with
  | none => .error .osErr
  | some src =>
    let source := BAct.sourcePath cfg a src
    if pexists fs source = false then
      .error (.actionErr "Source does not exists")
    else
      let dest := BAct.destPath cfg a
      if lexists fs dest then
        if islink fs dest then .ok a
        else do
          let sc ← sameContents fs source dest
          if sc then .ok a
          else .error (.actionErr "Destination exists and is not a link")
      else .ok a

/-- `SymlinkAction.sync`: remove a stale or same-content destination, then
create a symlink whose literal target is the source path relative to the
destination directory (`os.symlink` fails if the destination still
exists).  `_makedirs` is a no-op in this model. -/
def SymlinkAction.sync (cfg : Config) (fs : FS) (a : BAct) :
    Except Err (FS × List Msg) :=
  match a.source with
  | none => .error .osErr
  | some src =>
    let source := BAct.sourcePath cfg a src
    let dest := BAct.destPath cfg a
    let create : FS → List Msg → Except Err (FS × List Msg) := fun fs1 msgs =>
      let relsource := normP (relP source (joinP cfg.dest ⟨false, a.relpath⟩))
      if lexists fs1 dest then .error .osErr
      else .ok (fsSet fs1 dest (.link relsource),
                msgs ++ [.createdLink dest source])
    if lexists fs dest then
      if islink fs dest then
        if pexists fs dest = false then
          create (fsDel fs dest) [.linkAltered]
        else do
          let sm ← samefileE fs dest source
          if sm then .ok (fs, [])
          else create (fsDel fs dest) [.linkAltered]
      else do
        let sc ← sameContents fs source dest
        if sc then create (fsDel fs dest) [.linkSameContents]
        else create fs []
    else create fs []

/-- `TextAction.check`: when invoked through a `TextForwarder`, the source
slot carries the literal text and is moved into the `text` attribute. -/
def TextAction.check (a : BAct) : BAct :=
  match a.source with
  | some s => { a with text := some s, source := none }
  | none => a

/-- `TextAction.sync` (shared by the copy/copy-once/empty subclasses via
the `once` flag): refuse to clobber a symlink; `open(dest, a+)` creates
the destination if missing; rewrite only when the existing content
differs from the desired text and the once-policy does not forbid it. -/
def TextAction.sync (cfg : Config) (fs : FS) (a : BAct) :
    Except Err (FS × List Msg) :=
  let dest := BAct.destPath cfg a
  let ex := pexists fs dest
  if islink fs dest then .error (.actionErr "Destination is a link")
  else
    match a.text with
    | none => .error .osErr
    | some t =>
      let cur : String :=
        match fsGet fs dest with
        | some (.file c) => c
        | _ => ""
      let fs1 : FS :=
        match fsGet fs dest with
        | none => fsSet fs dest (.file "")
        | some _ => fs
      if cur ≠ t then
        if ex && a.cls.once then .ok (fs1, [.notUpdated dest])
        else .ok (fsSet fs1 dest (.file t), [.updatedFile dest])
      else .ok (fs1, [])

/-- `CopyAction.check` (also inherited by `CopyOnceAction`): read the
desired text from the source file. -/
def CopyAction.check (cfg : Config) (fs : FS) (a : BAct) : Except Err BAct :=
  match a.source with
  | none => .error .osErr
  | some s => do
    let t ← readFile fs (BAct.sourcePath cfg a s)
    .ok { a with text := some t }

/-- Dispatch of `check` over the non-programmable classes
(`EmptyAction.check` sets the text to the empty string; `IgnoreAction`
instances are never stored in the tree and inherit the base
`NotImplementedError`). -/
def BAct.check (cfg : Config) (fs : FS) (a : BAct) : Except Err BAct :=
  match a.cls with
  | .symlinkA => SymlinkAction.check cfg fs a
  | .textA => .ok (TextAction.check a)
  | .copyA => CopyAction.check cfg fs a
  | .copyOnceA => CopyAction.check cfg fs a
  | .emptyA => .ok { a with text := some "" }
  | .programmable => .error .notImpl
  | .ignoreA => .error .notImpl

/-- Dispatch of `sync` over the non-programmable classes. -/
def BAct.sync (cfg : Config) (fs : FS) (a : BAct) : Except Err (FS × List Msg) :=
  match a.cls with
  | .symlinkA => SymlinkAction.sync cfg fs a
  | .textA => TextAction.sync cfg fs a
  | .copyA => TextAction.sync cfg fs a
  | .copyOnceA => TextAction.sync cfg fs a
  | .emptyA => TextAction.sync cfg fs a
  | .programmable => .error .notImpl
  | .ignoreA => .error .notImpl

/-- Outcome of evaluating a programmable entry's script: one of the four
Forwarder signals, or normal termination without a signal. -/
inductive SRes where
  | redirect (filename : String)
  | empty
  | text (t : String)
  | ignore
  | noSignal
deriving DecidableEq, Repr

/-- A tree entry: a base action plus, for programmable entries, the proxy
resolved during `check` (never itself programmable). -/
structure Act where
  base : BAct
  proxy : Option BAct := none
deriving DecidableEq, Repr

/-- `SymlinkForwarder.get_proxy`. -/
def SymlinkForwarder.get_proxy (a : Act) (filename : String) : BAct :=
  ⟨.symlinkA, a.base.relpath, some filename, a.base.dest, none⟩

/-- `EmptyForwarder.get_proxy`. -/
def EmptyForwarder.get_proxy (a : Act) : BAct :=
  ⟨.emptyA, a.base.relpath, none, a.base.dest, none⟩

/-- `TextForwarder.get_proxy` (the text is passed as the source). -/
def TextForwarder.get_proxy (a : Act) (t : String) : BAct :=
  ⟨.textA, a.base.relpath, some t, a.base.dest, none⟩

/-- `ProgrammableAction.check`: run the script (via the outcome oracle
`ev`); `redirect(name)` raises `SymlinkForwarder('_' + name)`; a script
that terminates without a Forwarder signal is an "Unknown result" error;
otherwise build the proxy and delegate `check` to it.  The filesystem is
threaded through unchanged: no check writes to it. -/
def ProgrammableAction.check (cfg : Config) (ev : String → SRes) (fs : FS)
    (a : Act) : Except Err (Act × FS) :=
  match a.base.source with
  | none => .error .osErr
  | some nm => do
    let content ← readFile fs (BAct.sourcePath cfg a.base nm)
    match ev content with
    | .noSignal => .error (.actionErr "Unknown result")
    | .redirect n => do
      let p ← BAct.check cfg fs (SymlinkForwarder.get_proxy a ("_" ++ n))
      .ok ({ a with proxy := some p }, fs)
    | .empty => do
      let p ← BAct.check cfg fs (EmptyForwarder.get_proxy a)
      .ok ({ a with proxy := some p }, fs)
    | .text t => do
      let p ← BAct.check cfg fs (TextForwarder.get_proxy a t)
      .ok ({ a with proxy := some p }, fs)
    | .ignore => .ok ({ a with proxy := none }, fs)

/-- `check` of a tree entry (the filesystem is returned unchanged by
every branch: checks only read). -/
def Act.check (cfg : Config) (ev : String → SRes) (fs : FS) (a : Act) :
    Except Err (Act × FS) :=
  if a.base.cls = ACls.programmable then ProgrammableAction.check cfg ev fs a
  else do
    let b ← BAct.check cfg fs a.base
    .ok ({ a with base := b }, fs)

/-- `sync` of a tree entry: a programmable entry delegates to its proxy
(no-op when the script said ignore). -/
def Act.sync (cfg : Config) (fs : FS) (a : Act) : Except Err (FS × List Msg) :=
  if a.base.cls = ACls.programmable then
    match a.proxy with
    | some p => BAct.sync cfg fs p
    | none => .ok (fs, [])
  else BAct.sync cfg fs a.base

/-- The tri-state result of `Action.matches`: `False` (try next class),
`None` (ignore the file), or the destination filename. -/
inductive Verdict where
  | noMatch
  | ignoreV
  | matched (dest : String)
deriving DecidableEq, Repr

/-- The destination slot the orchestrator extracts from a verdict. -/
def Verdict.toDest : Verdict → Option String
  | .matched d => some d
  | _ => none

/-- Whether `f` ends with the literal suffix `suf` (the anchored regex
`suf$` used by the matchers). -/
def endsWithStr (f suf : String) : Bool := suf.data.isSuffixOf f.data

/-- `re.sub(suf$, the empty string, f)`: strip the suffix. -/
def stripSuffixStr (f suf : String) : String :=
  ⟨f.data.take (f.data.length - suf.data.length)⟩

/-- Suffix matchers such as `CopyAction.matches`: on a match the
destination is the filename with the marker stripped. -/
def matchSuffix (f suf : String) : Verdict :=
  if endsWithStr f suf then .matched (stripSuffixStr f suf) else .noMatch

/-- `IgnoreAction.IGNORED.match`: a leading underscore, or exactly `.git`
or `.gitignore`. -/
def ignoredMatch (f : String) : Bool :=
  decide (f.data.take 1 = ['_']) || decide (f = ".git")
    || decide (f = ".gitignore")

/-- `matches` of each action class.  `TextAction` inherits the abstract
`Action.matches`, which raises `NotImplementedError`. -/
def Action.matches : ACls → String → Except Err Verdict
  | .programmable, f => .ok (matchSuffix f ".p.py")
  | .ignoreA, f => .ok (if ignoredMatch f then .ignoreV else .noMatch)
  | .emptyA, f => .ok (matchSuffix f ".empty")
  | .copyA, f => .ok (matchSuffix f ".copy")
  | .copyOnceA, f => .ok (matchSuffix f ".copyonce")
  | .symlinkA, f => .ok (.matched f)
  | .textA, _ => .error .notImpl

/-- `ConfigSource.DEFAULT_CLASSES`, in declaration order. -/
def ConfigSource.DEFAULT_CLASSES : List ACls :=
  [.programmable, .ignoreA, .emptyA, .copyA, .copyOnceA, .symlinkA]

/-- `ConfigSource._get_file_class`: first class whose `matches` does not
return `False`; fails when no class accepts. -/
def ConfigSource.getFileClass : List ACls → String →
    Except Err (ACls × Option String)
  | [], f => .error (.noClassErr f)
  | c :: rest, f => do
    let v ← Action.matches c f
    match v with
    | .noMatch => ConfigSource.getFileClass rest f
    | .ignoreV => .ok (c, none)
    | .matched d => .ok (c, some d)

/-- The per-directory slice of the tree: destination name to action, in
insertion order. -/
abbrev DirFiles := List (String × Act)

/-- The analyzed tree: relative directory to its files, in insertion
order. -/
abbrev CTree := List (List String × DirFiles)

/-- Lookup of a directory in the tree. -/
def treeFind : CTree → List String → Option DirFiles
  | [], _ => none
  | e :: rest, rp => if e.1 = rp then some e.2 else treeFind rest rp

/-- Lookup of a destination name in a directory slice. -/
def filesFind : DirFiles → String → Option Act
  | [], _ => none
  | e :: rest, d => if e.1 = d then some e.2 else filesFind rest d

/-- Replace the slice of a directory (or append a new directory). -/
def treeSetFiles : CTree → List String → DirFiles → CTree
  | [], rp, fl => [(rp, fl)]
  | e :: rest, rp, fl =>
    if e.1 = rp then (rp, fl) :: rest else e :: treeSetFiles rest rp fl

/-- `cls(self, relpath, filename, dest)`: a freshly instantiated action. -/
def mkAct (c : ACls) (rp : List String) (filename d : String) : Act :=
  ⟨⟨c, rp, some filename, d, none⟩, none⟩

/-- `ConfigSource._add`: insert an action, failing on a destination-name
conflict within the directory. -/
def ConfigSource.addResolved (t : CTree) (rp : List String)
    (filename : String) (c : ACls) (d : String) : Except Err CTree :=
  let files := (treeFind t rp).getD []
  match filesFind files d with
  | some existing => .error (.conflictErr filename existing.base.source)
  | none => .ok (treeSetFiles t rp (files ++ [(d, mkAct c rp filename d)]))

/-- `ConfigSource.add`: classify the filename and store the action unless
the verdict was ignore. -/
def ConfigSource.add (cfg : Config) (t : CTree) (rp : List String)
    (filename : String) : Except Err CTree := do
  let r ← ConfigSource.getFileClass cfg.classes filename
  match r.2 with
  | none => .ok t
  | some d => ConfigSource.addResolved t rp filename r.1 d

/-- `ConfigSource.analyze`, folded over the walk output (one `(relative
directory, filename)` pair per regular file; directories renamed by the
`ACT_AS_FILE` marker go through `add_dir` and are not modelled here). -/
def ConfigSource.analyze (cfg : Config) :
    List (List String × String) → CTree → Except Err CTree
  | [], t => .ok t
  | (rp, f) :: rest, t => do
    let t1 ← ConfigSource.add cfg t rp f
    ConfigSource.analyze cfg rest t1

/-- The actions of the tree in iteration order (`ConfigSource.__iter__`). -/
def treeActions (t : CTree) : List Act :=
  (t.map (fun e => e.2.map (fun x => x.2))).flatten

/-- The check pass of `ConfigSource.execute`: run `check` on every action
in order, stopping at the first error; the filesystem is threaded through
(and, as the checks are read-only, returned unchanged). -/
def ConfigSource.runChecks (cfg : Config) (ev : String → SRes) :
    List Act → FS → Except Err (List Act) × FS
  | [], fs => (.ok [], fs)
  | a :: rest, fs =>
    match Act.check cfg ev fs a with
    | .error e => (.error e, fs)
    | .ok (a1, fs1) =>
      match ConfigSource.runChecks cfg ev rest fs1 with
      | (.error e, fs2) => (.error e, fs2)
      | (.ok rest1, fs2) => (.ok (a1 :: rest1), fs2)

/-- The sync pass of `ConfigSource.execute`: run `sync` on every action in
order; an exception aborts the remaining actions. -/
def ConfigSource.runSyncs (cfg : Config) :
    List Act → FS → FS × List Msg × Option Err
  | [], fs => (fs, [], none)
  | a :: rest, fs =>
    match Act.sync cfg fs a with
    | .error e => (fs, [], some e)
    | .ok (fs1, m) =>
      let r := ConfigSource.runSyncs cfg rest fs1
      (r.1, m ++ r.2.1, r.2.2)

/-- `ConfigSource.execute`: the whole check pass runs before the first
sync. -/
def ConfigSource.execute (cfg : Config) (ev : String → SRes)
    (acts : List Act) (fs : FS) : FS × List Msg × Option Err :=
  match ConfigSource.runChecks cfg ev acts fs with
  | (.error e, fs1) => (fs1, [], some e)
  | (.ok acts1, fs1) => ConfigSource.runSyncs cfg acts1 fs1

/-- `ConfigSource.sync`: analyze, then execute. -/
def ConfigSource.sync (cfg : Config) (ev : String → SRes)
    (entries : List (List String × String)) (fs : FS) :
    FS × List Msg × Option Err :=
  match ConfigSource.analyze cfg entries [] with
  | .error e => (fs, [], some e)
  | .ok t => ConfigSource.execute cfg ev (treeActions t) fs

/-- A small concrete configuration used by witnesses: source root `/s`,
destination root `/d`, default registry. -/
def cfg0 : Config := ⟨⟨true, ["s"]⟩, ⟨true, ["d"]⟩, ConfigSource.DEFAULT_CLASSES⟩

/-- A script-outcome oracle that never signals (irrelevant for trees
without programmable entries). -/
def ev0 : String → SRes := fun _ => .noSignal

/-- A source tree for the redirect scenarios: the script file
`real.p.py`, and the sibling files `__real` and `_real`. -/
def fsP : FS :=
  [(⟨true, ["s", "real.p.py"]⟩, .file "code"),
   (⟨true, ["s", "__real"]⟩, .file "R1"),
   (⟨true, ["s", "_real"]⟩, .file "R2")]

/-- The programmable entry for `real.p.py`. -/
def actP : Act := ⟨⟨.programmable, [], some "real.p.py", "real", none⟩, none⟩

/-- Oracle for a script that calls `redirect("real")`. -/
def evRedir : String → SRes := fun _ => .redirect "real"

/-- Oracle for a script that calls `redirect("_real")`. -/
def evRedirU : String → SRes := fun _ => .redirect "_real"

/-- A checked copy-once action for the C5 scenario (text loaded). -/
def c5act : BAct := ⟨.copyOnceA, [], some "x.copyonce", "x", some "X"⟩

/-- Source `x.copyonce` with content `X`; destination `x` already holds
the identical content `X`. -/
def c5fs : FS :=
  [(⟨true, ["s", "x.copyonce"]⟩, .file "X"), (⟨true, ["d", "x"]⟩, .file "X")]

/-- Well-formed configuration roots: absolute, with ordinary components. -/
def GoodCfg (cfg : Config) : Prop :=
  cfg.source.abs = true ∧ cfg.dest.abs = true ∧
    goodComps cfg.source.comps ∧ goodComps cfg.dest.comps

instance : DecidablePred GoodCfg := fun cfg => by
  unfold GoodCfg; infer_instance

/-- Lookup of an action by (relative directory, destination name). -/
def lookupActT (t : CTree) (rp : List String) (d : String) : Option Act :=
  match treeFind t rp with
  | some fl => filesFind fl d
  | none => none

/-- Well-formedness of an analyzed tree: directory keys are unique, and
within each directory destination names are unique. -/
def TreeWF (t : CTree) : Prop :=
  (t.map Prod.fst).Nodup ∧ ∀ e ∈ t, (e.2.map Prod.fst).Nodup

/-- Source files `/s/a`, `/s/b` and a destination where `/d/a` is a
symlink to `b` (hence through `/d/b`) and `/d/b` is a symlink to
`../s/a`: a cross-linked initial state for the idempotence
counterexample. -/
def c2fs0 : FS :=
  [(⟨true, ["s", "a"]⟩, .file "A"), (⟨true, ["s", "b"]⟩, .file "B"),
   (⟨true, ["d", "a"]⟩, .link ⟨false, ["b"]⟩),
   (⟨true, ["d", "b"]⟩, .link ⟨false, ["..", "s", "a"]⟩)]

/-- The walk entries for that tree: the two plain files `a` and `b`. -/
def c2ents : List (List String × String) := [([], "a"), ([], "b")]

/-- Destination state after the first run: `b` was retargeted, `a` (which
resolved to the correct file through `b`) was left alone. -/
def c2fs1 : FS :=
  [(⟨true, ["d", "b"]⟩, .link ⟨false, ["..", "s", "b"]⟩),
   (⟨true, ["s", "a"]⟩, .file "A"), (⟨true, ["s", "b"]⟩, .file "B"),
   (⟨true, ["d", "a"]⟩, .link ⟨false, ["b"]⟩)]

/-- Destination state after the second run: now `a` no longer resolves to
`/s/a`, so it is unlinked and recreated — a mutation on the second run. -/
def c2fs2 : FS :=
  [(⟨true, ["d", "a"]⟩, .link ⟨false, ["..", "s", "a"]⟩),
   (⟨true, ["d", "b"]⟩, .link ⟨false, ["..", "s", "b"]⟩),
   (⟨true, ["s", "a"]⟩, .file "A"), (⟨true, ["s", "b"]⟩, .file "B")]

theorem normStep_good {b : Bool} {acc : List String} {c : String}
    (hc : goodName c) : normStep b acc c = c :: acc := by
  obtain ⟨h1, h2, h3⟩ := hc
  unfold normStep
  rw [if_neg (by simp [h1, h2]), if_neg h3]

theorem foldl_normStep_good {b : Bool} :
    ∀ {l : List String}, goodComps l →
      ∀ acc, l.foldl (normStep b) acc = l.reverse ++ acc := by
  intro l
  induction l with
  | nil => intro _ acc; simp
  | cons c cs ih =>
    intro h acc
    have hc : goodName c := h c (List.mem_cons_self _ _)
    have hcs : goodComps cs := fun s hs => h s (List.mem_cons_of_mem _ hs)
    simp only [List.foldl_cons, normStep_good hc, ih hcs, List.reverse_cons,
      List.append_assoc, List.cons_append, List.nil_append]

theorem normP_good {b : Bool} {l : List String} (h : goodComps l) :
    normP ⟨b, l⟩ = ⟨b, l⟩ := by
  simp [normP, foldl_normStep_good h]

theorem foldl_normStep_dotdot_abs :
    ∀ (k : Nat) (acc : List String), (∀ x ∈ acc, x ≠ "..") →
      (List.replicate k "..").foldl (normStep true) acc = acc.drop k := by
  intro k
  induction k with
  | zero => intro acc _; simp
  | succ n ih =>
    intro acc hacc
    rw [List.replicate_succ, List.foldl_cons]
    have hdd : normStep true acc ".." = acc.drop 1 := by
      unfold normStep
      rw [if_neg (by simp), if_pos rfl]
      cases acc with
      | nil => simp
      | cons top rest =>
        have : top ≠ ".." := hacc top (List.mem_cons_self _ _)
        simp [this]
    rw [hdd]
    rw [ih (acc.drop 1) (fun x hx => hacc x (List.mem_of_mem_drop hx))]
    simp [List.drop_drop, Nat.add_comm]

theorem foldl_normStep_dotdot_rel :
    ∀ (k m : Nat),
      (List.replicate k "..").foldl (normStep false) (List.replicate m "..")
        = List.replicate (k + m) ".." := by
  intro k
  induction k with
  | zero => intro m; simp
  | succ n ih =>
    intro m
    rw [List.replicate_succ, List.foldl_cons]
    have hstep : normStep false (List.replicate m "..") ".."
        = List.replicate (m + 1) ".." := by
      unfold normStep
      rw [if_neg (by simp), if_pos rfl]
      cases m with
      | zero => simp
      | succ m' => simp [List.replicate_succ]
    rw [hstep, ih (m + 1)]
    congr 1
    omega

theorem commonLen_le_left : ∀ (a b : List String), commonLen a b ≤ a.length := by
  intro a
  induction a with
  | nil => intro b; cases b <;> simp [commonLen]
  | cons x xs ih =>
    intro b
    cases b with
    | nil => simp [commonLen]
    | cons y ys =>
      unfold commonLen
      split
      · have := ih ys; simpa [Nat.succ_le_succ_iff] using this
      · simp

theorem commonLen_le_right : ∀ (a b : List String), commonLen a b ≤ b.length := by
  intro a
  induction a with
  | nil => intro b; cases b <;> simp [commonLen]
  | cons x xs ih =>
    intro b
    cases b with
    | nil => simp [commonLen]
    | cons y ys =>
      unfold commonLen
      split
      · have := ih ys; simpa [Nat.succ_le_succ_iff] using this
      · simp

theorem commonLen_take : ∀ (a b : List String),
    a.take (commonLen a b) = b.take (commonLen a b) := by
  intro a
  induction a with
  | nil => intro b; cases b <;> simp [commonLen]
  | cons x xs ih =>
    intro b
    cases b with
    | nil => simp [commonLen]
    | cons y ys =>
      unfold commonLen
      split
      · rename_i heq
        simp [List.take_succ_cons, heq, ih ys]
      · simp

theorem reverse_drop_reverse (s : List String) :
    ∀ k, (s.reverse.drop k).reverse = s.take (s.length - k) := by
  induction s with
  | nil => intro k; simp
  | cons x xs ih =>
    intro k
    by_cases hk : k ≤ xs.length
    · rw [List.reverse_cons,
        List.drop_append_of_le_length (by simpa using hk),
        List.reverse_append, ih k]
      have hlen : (x :: xs).length - k = (xs.length - k) + 1 := by
        simp only [List.length_cons]; omega
      rw [hlen, List.take_succ_cons]
      simp
    · have h1 : (x :: xs).reverse.drop k = [] := by
        apply List.drop_eq_nil_of_le
        simp only [List.length_reverse, List.length_cons]; omega
      have h2 : (x :: xs).length - k = 0 := by
        simp only [List.length_cons]; omega
      rw [h1, h2]
      simp

theorem relP_eq (pl sl : List String) (hp : goodComps pl) (hs : goodComps sl) :
    relP ⟨true, pl⟩ ⟨true, sl⟩ =
      ⟨false, List.replicate (sl.length - commonLen pl sl) ".." ++
        pl.drop (commonLen pl sl)⟩ := by
  unfold relP
  rw [normP_good hp, normP_good hs]

theorem normP_dotdot_good (k : Nat) (l : List String) (hl : goodComps l) :
    normP ⟨false, List.replicate k ".." ++ l⟩
      = ⟨false, List.replicate k ".." ++ l⟩ := by
  unfold normP
  simp only [List.foldl_append]
  have h1 : (List.replicate k "..").foldl (normStep false) [] =
      List.replicate k ".." := by
    have := foldl_normStep_dotdot_rel k 0
    simpa using this
  rw [h1, foldl_normStep_good hl]
  simp

theorem relP_fix (pl sl : List String) (hp : goodComps pl) (hs : goodComps sl) :
    normP (relP ⟨true, pl⟩ ⟨true, sl⟩) = relP ⟨true, pl⟩ ⟨true, sl⟩ := by
  rw [relP_eq pl sl hp hs]
  exact normP_dotdot_good _ _ (fun s hsm => hp s (List.mem_of_mem_drop hsm))

theorem joinP_relP (pl sl : List String) (hp : goodComps pl) (hs : goodComps sl) :
    normP (joinP ⟨true, sl⟩ (relP ⟨true, pl⟩ ⟨true, sl⟩)) = ⟨true, pl⟩ := by
  rw [relP_eq pl sl hp hs]
  unfold joinP
  simp only [if_neg (by simp : ¬(false = true))]
  unfold normP
  simp only [List.foldl_append]
  rw [foldl_normStep_good hs]
  simp only [List.append_nil]
  have hk : ∀ x ∈ sl.reverse, x ≠ ".." := by
    intro x hx
    exact (hs x (List.mem_reverse.mp hx)).2.2
  rw [foldl_normStep_dotdot_abs _ _ hk]
  rw [foldl_normStep_good (fun s hsm => hp s (List.mem_of_mem_drop hsm))]
  simp only [List.reverse_append, List.reverse_reverse]
  rw [reverse_drop_reverse]
  have hle : commonLen pl sl ≤ sl.length := commonLen_le_right pl sl
  have hi : sl.length - (sl.length - commonLen pl sl) = commonLen pl sl := by
    omega
  rw [hi, ← commonLen_take pl sl, List.take_append_drop]

theorem except_bind_ok {α β : Type} {e : Except Err α} {k : α → Except Err β}
    {v : β} : (e >>= k) = .ok v ↔ ∃ x, e = .ok x ∧ k x = .ok v := by
  cases e <;> simp [Bind.bind, Except.bind]

theorem fsGet_fsDel_ne {fs : FS} {p q : PPath} (h : q ≠ p) :
    fsGet (fsDel fs p) q = fsGet fs q := by
  induction fs with
  | nil => rfl
  | cons e rest ih =>
    by_cases he : e.1 = p
    · rw [fsDel, if_pos he, ih, fsGet,
        if_neg (by intro heq; rw [heq] at he; exact h he)]
    · rw [fsDel, if_neg he]
      by_cases heq : e.1 = q
      · rw [fsGet, if_pos heq, fsGet, if_pos heq]
      · rw [fsGet, if_neg heq, fsGet, if_neg heq, ih]

theorem fsGet_fsDel_self {fs : FS} {p : PPath} :
    fsGet (fsDel fs p) p = none := by
  induction fs with
  | nil => rfl
  | cons e rest ih =>
    by_cases he : e.1 = p
    · rw [fsDel, if_pos he]; exact ih
    · rw [fsDel, if_neg he, fsGet, if_neg he]; exact ih

theorem fsGet_fsSet_self {fs : FS} {p : PPath} {n : FNode} :
    fsGet (fsSet fs p n) p = some n := by
  rw [fsSet, fsGet, if_pos rfl]

theorem fsGet_fsSet_ne {fs : FS} {p q : PPath} {n : FNode} (h : q ≠ p) :
    fsGet (fsSet fs p n) q = fsGet fs q := by
  rw [fsSet, fsGet, if_neg (fun hq => h hq.symm)]
  exact fsGet_fsDel_ne h

theorem fsGet_ne_nil {fs : FS} {p : PPath} {n : FNode}
    (h : fsGet fs p = some n) : fs ≠ [] := by
  intro hfs
  rw [hfs] at h
  exact absurd h (by simp [fsGet])

theorem presolve_file {fs : FS} {p : PPath} {c : String}
    (h : fsGet fs p = some (.file c)) : presolve fs p = some p := by
  unfold presolve
  rw [resolveFuel, h]

theorem presolve_link_file {fs : FS} {p t q : PPath} {c : String}
    (hp : fsGet fs p = some (.link t))
    (hq : normP (joinP (dirOf p) t) = q)
    (hf : fsGet fs q = some (.file c)) : presolve fs p = some q := by
  unfold presolve
  cases fs with
  | nil => exact absurd rfl (fsGet_ne_nil hp)
  | cons e rest =>
    show resolveFuel ((e :: rest).length + 1) (e :: rest) p = some q
    rw [List.length_cons, resolveFuel, hp]
    show resolveFuel (rest.length + 1) (e :: rest) (normP (joinP (dirOf p) t))
      = some q
    rw [hq, resolveFuel, hf]

theorem Act.check_fs_eq {cfg : Config} {ev : String → SRes} {fs : FS}
    {a a1 : Act} {fs1 : FS} (h : Act.check cfg ev fs a = .ok (a1, fs1)) :
    fs1 = fs := by
  unfold Act.check at h
  split at h
  · unfold ProgrammableAction.check at h
    cases hsrc : a.base.source with
    | none => rw [hsrc] at h; exact absurd h (by simp)
    | some nm =>
      rw [hsrc] at h
      rw [except_bind_ok] at h
      obtain ⟨content, hread, h⟩ := h
      cases hev : ev content with
      | noSignal => rw [hev] at h; exact absurd h (by simp)
      | redirect n =>
        rw [hev, except_bind_ok] at h
        obtain ⟨p, hp, h⟩ := h
        exact (Prod.mk.injEq _ _ _ _ ▸ Except.ok.inj h).2.symm
      | empty =>
        rw [hev, except_bind_ok] at h
        obtain ⟨p, hp, h⟩ := h
        exact (Prod.mk.injEq _ _ _ _ ▸ Except.ok.inj h).2.symm
      | text t =>
        rw [hev, except_bind_ok] at h
        obtain ⟨p, hp, h⟩ := h
        exact (Prod.mk.injEq _ _ _ _ ▸ Except.ok.inj h).2.symm
      | ignore =>
        rw [hev] at h
        exact (Prod.mk.injEq _ _ _ _ ▸ Except.ok.inj h).2.symm
  · rw [except_bind_ok] at h
    obtain ⟨b, hb, h⟩ := h
    exact (Prod.mk.injEq _ _ _ _ ▸ Except.ok.inj h).2.symm

theorem runChecks_error_of_mem (cfg : Config) (ev : String → SRes) :
    ∀ (acts : List Act) (fs : FS),
      (∃ a ∈ acts, ∃ e, Act.check cfg ev fs a = .error e) →
      ∃ e1, ConfigSource.runChecks cfg ev acts fs = (.error e1, fs) := by
  intro acts
  induction acts with
  | nil =>
    intro fs h
    obtain ⟨a, ha, _⟩ := h
    exact absurd ha (List.not_mem_nil a)
  | cons a rest ih =>
    intro fs h
    cases hchk : Act.check cfg ev fs a with
    | error e =>
      exact ⟨e, by rw [ConfigSource.runChecks, hchk]⟩
    | ok pair =>
      obtain ⟨a1, fs1⟩ := pair
      have hfs1 : fs1 = fs := Act.check_fs_eq hchk
      obtain ⟨x, hx, e, hxe⟩ := h
      rcases List.mem_cons.mp hx with hxa | hxrest
      · rw [hxa] at hxe
        rw [hxe] at hchk
        exact absurd hchk (by simp)
      · obtain ⟨e1, hrc⟩ := ih fs ⟨x, hxrest, e, hxe⟩
        refine ⟨e1, ?_⟩
        rw [ConfigSource.runChecks, hchk, hfs1]
        show (match ConfigSource.runChecks cfg ev rest fs with
          | (Except.error e, fs2) => (Except.error e, fs2)
          | (Except.ok rest1, fs2) => (Except.ok (a1 :: rest1), fs2))
          = (Except.error e1, fs)
        rw [hrc]

/-- C1: in `ConfigSource.execute`, every action is checked before any
action is synced, so if some action's check raises, the run ends with
that error, no sync is invoked, and the destination filesystem is exactly
the filesystem before the run. -/
theorem C1_fail_before_mutate (cfg : Config) (ev : String → SRes)
    (acts : List Act) (fs : FS)
    (h : ∃ a ∈ acts, ∃ e, Act.check cfg ev fs a = .error e) :
    ∃ e1, ConfigSource.execute cfg ev acts fs = (fs, [], some e1) := by
  obtain ⟨e1, hrc⟩ := runChecks_error_of_mem cfg ev acts fs h
  exact ⟨e1, by rw [ConfigSource.execute, hrc]⟩

/-- Witness for C1: a symlink action whose source file is missing makes
the whole run abort with the filesystem untouched. -/
theorem C1_fail_before_mutate_witness :
    ∃ e1, ConfigSource.execute cfg0 ev0
      [⟨⟨.symlinkA, [], some "a", "a", none⟩, none⟩] [] = ([], [], some e1) :=
  C1_fail_before_mutate cfg0 ev0
    [⟨⟨.symlinkA, [], some "a", "a", none⟩, none⟩] []
    ⟨⟨⟨.symlinkA, [], some "a", "a", none⟩, none⟩, by decide,
     .actionErr "Source does not exists", by decide⟩

/-- C9: under the default registry the "No class found" branch is dead:
`SymlinkAction.matches` returns its argument for every filename, so
classification always succeeds. -/
theorem C9_no_class_unreachable (f : String) :
    Action.matches .symlinkA f = .ok (.matched f) ∧
    ∃ c dOpt, ConfigSource.getFileClass ConfigSource.DEFAULT_CLASSES f
      = .ok (c, dOpt) := by
  refine ⟨rfl, ?_⟩
  simp only [ConfigSource.DEFAULT_CLASSES, ConfigSource.getFileClass,
    Action.matches, matchSuffix, Bind.bind, Except.bind]
  split_ifs <;> exact ⟨_, _, rfl⟩

/-- C10: a filename whose classification verdict is ignore adds nothing
to the tree, whatever the tree already contains — so it can collide with
no destination and is never visited by the check or sync passes. -/
theorem C10_ignored_invisible (cfg : Config) (t : CTree) (rp : List String)
    (f : String) (c : ACls)
    (h : ConfigSource.getFileClass cfg.classes f = .ok (c, none)) :
    ConfigSource.add cfg t rp f = .ok t := by
  unfold ConfigSource.add
  rw [h]
  rfl

/-- Witness for C10: under the default registry, `_real` is ignored and
adds nothing, even to a directory that already has an entry under the
destination name `_real`. -/
theorem C10_ignored_invisible_witness :
    ConfigSource.add cfg0 [([], [("_real", mkAct .symlinkA [] "_real" "_real")])]
      [] "_real" = .ok [([], [("_real", mkAct .symlinkA [] "_real" "_real")])] :=
  C10_ignored_invisible cfg0 _ [] "_real" .ignoreA (by decide)

/-- C7 counterexample: the default registry sequence is not the one the
claim lists — it has `CopyAction` before `CopyOnceAction`, not after. -/
theorem C7_counterexample :
    ConfigSource.DEFAULT_CLASSES ≠
      [.programmable, .ignoreA, .emptyA, .copyOnceA, .copyA, .symlinkA] := by
  decide

/-- C7 (amended): classification is first-match-wins — the first class in
the sequence whose `matches` does not return `False` decides — and the
default sequence is programmable, ignore, empty, copy, copy-once, symlink. -/
theorem C7_first_match_wins (cs1 : List ACls) (c : ACls) (cs2 : List ACls)
    (f : String) (v : Verdict)
    (h1 : ∀ c1 ∈ cs1, Action.matches c1 f = .ok .noMatch)
    (h2 : Action.matches c f = .ok v) (h3 : v ≠ .noMatch) :
    ConfigSource.getFileClass (cs1 ++ c :: cs2) f = .ok (c, v.toDest) ∧
    ConfigSource.DEFAULT_CLASSES
      = [.programmable, .ignoreA, .emptyA, .copyA, .copyOnceA, .symlinkA] := by
  refine ⟨?_, rfl⟩
  induction cs1 with
  | nil =>
    simp only [List.nil_append, ConfigSource.getFileClass, h2, Bind.bind,
      Except.bind]
    cases v with
    | noMatch => exact absurd rfl h3
    | ignoreV => rfl
    | matched d => rfl
  | cons x xs ih =>
    have hx := h1 x (List.mem_cons_self _ _)
    simp only [List.cons_append, ConfigSource.getFileClass, hx, Bind.bind,
      Except.bind]
    exact ih (fun c1 hc1 => h1 c1 (List.mem_cons_of_mem _ hc1))

/-- Witness for C7: with the two classes before it returning `False` on
`x.empty`, the empty-marker class decides and strips the suffix. -/
theorem C7_first_match_wins_witness :
    ConfigSource.getFileClass
      ([.programmable, .ignoreA] ++ .emptyA :: [.copyA, .copyOnceA, .symlinkA])
      "x.empty" = .ok (.emptyA, Verdict.toDest (.matched "x")) ∧
    ConfigSource.DEFAULT_CLASSES
      = [.programmable, .ignoreA, .emptyA, .copyA, .copyOnceA, .symlinkA] :=
  C7_first_match_wins [.programmable, .ignoreA] .emptyA
    [.copyA, .copyOnceA, .symlinkA] "x.empty" (.matched "x")
    (by decide) (by decide) (by decide)

/-- C8: for a programmable entry whose script is readable, a script run
that terminates without one of the four Forwarder signals makes `check`
fail with the fatal "Unknown result" error; each signal instead builds
the corresponding proxy via its Forwarder's `get_proxy` (redirect
prefixing the underscore) and delegates `check` to that proxy; an ignore
signal stores no proxy. -/
theorem C8_script_protocol (cfg : Config) (ev : String → SRes) (fs : FS)
    (a : Act) (nm s : String)
    (hcls : a.base.cls = .programmable)
    (hsrc : a.base.source = some nm)
    (hread : readFile fs (BAct.sourcePath cfg a.base nm) = .ok s) :
    (ev s = .noSignal →
      Act.check cfg ev fs a = .error (.actionErr "Unknown result")) ∧
    (∀ n, ev s = .redirect n →
      Act.check cfg ev fs a =
        match BAct.check cfg fs (SymlinkForwarder.get_proxy a ("_" ++ n)) with
        | .error e => .error e
        | .ok p => .ok ({ a with proxy := some p }, fs)) ∧
    (ev s = .empty →
      Act.check cfg ev fs a =
        match BAct.check cfg fs (EmptyForwarder.get_proxy a) with
        | .error e => .error e
        | .ok p => .ok ({ a with proxy := some p }, fs)) ∧
    (∀ t, ev s = .text t →
      Act.check cfg ev fs a =
        match BAct.check cfg fs (TextForwarder.get_proxy a t) with
        | .error e => .error e
        | .ok p => .ok ({ a with proxy := some p }, fs)) ∧
    (ev s = .ignore →
      Act.check cfg ev fs a = .ok ({ a with proxy := none }, fs)) := by
  have hA : Act.check cfg ev fs a = ProgrammableAction.check cfg ev fs a := by
    unfold Act.check
    rw [if_pos hcls]
  refine ⟨?_, ?_, ?_, ?_, ?_⟩
  · intro hev
    rw [hA]
    simp only [ProgrammableAction.check, hsrc, hread, Bind.bind, Except.bind,
      hev]
  · intro n hev
    rw [hA]
    simp only [ProgrammableAction.check, hsrc, hread, Bind.bind, Except.bind,
      hev]
    cases BAct.check cfg fs (SymlinkForwarder.get_proxy a ("_" ++ n)) <;> rfl
  · intro hev
    rw [hA]
    simp only [ProgrammableAction.check, hsrc, hread, Bind.bind, Except.bind,
      hev]
    cases BAct.check cfg fs (EmptyForwarder.get_proxy a) <;> rfl
  · intro t hev
    rw [hA]
    simp only [ProgrammableAction.check, hsrc, hread, Bind.bind, Except.bind,
      hev]
    cases BAct.check cfg fs (TextForwarder.get_proxy a t) <;> rfl
  · intro hev
    rw [hA]
    simp only [ProgrammableAction.check, hsrc, hread, Bind.bind, Except.bind,
      hev]

/-- Witness for C8: a script signalling `redirect("real")` resolves the
entry to a symlink proxy at `_real`, validated in place. -/
theorem C8_script_protocol_witness :
    Act.check cfg0 evRedir fsP actP
      = .ok (⟨actP.base, some ⟨.symlinkA, [], some "_real", "real", none⟩⟩,
             fsP) := by
  have h := C8_script_protocol cfg0 evRedir fsP actP "real.p.py" "code"
    rfl rfl (by decide)
  rw [h.2.1 "real" rfl]
  decide

/-- C4 counterexample: with the script invoking `redirect("_real")` (and
both `_real` and `__real` present as siblings), the resolved proxy reads
`__real` — `redirect` prepends another underscore — so the created link's
target resolves to `/s/__real`, not to the sibling `_real` the claim
names. -/
theorem C4_counterexample :
    Act.check cfg0 evRedirU fsP actP
      = .ok (⟨actP.base, some ⟨.symlinkA, [], some "__real", "real", none⟩⟩,
             fsP) ∧
    Act.sync cfg0 fsP ⟨actP.base, some ⟨.symlinkA, [], some "__real", "real", none⟩⟩
      = .ok ((⟨true, ["d", "real"]⟩, .link ⟨false, ["..", "s", "__real"]⟩) :: fsP,
             [.createdLink ⟨true, ["d", "real"]⟩ ⟨true, ["s", "__real"]⟩]) ∧
    normP (joinP (dirOf ⟨true, ["d", "real"]⟩) ⟨false, ["..", "s", "__real"]⟩)
      ≠ ⟨true, ["s", "_real"]⟩ := by
  decide

/-- C4 (amended): a script-marked entry whose script invokes
`redirect("real")` produces, after check and sync, a destination symlink
whose target resolves to the sibling source file `_real` (`redirect`
itself prepends the underscore marker), and `_real` is never
independently classified: the ignore rule claims it and `add` stores
nothing for it. -/
theorem C4_amended_redirect :
    Act.check cfg0 evRedir fsP actP
      = .ok (⟨actP.base, some ⟨.symlinkA, [], some "_real", "real", none⟩⟩,
             fsP) ∧
    Act.sync cfg0 fsP ⟨actP.base, some ⟨.symlinkA, [], some "_real", "real", none⟩⟩
      = .ok ((⟨true, ["d", "real"]⟩, .link ⟨false, ["..", "s", "_real"]⟩) :: fsP,
             [.createdLink ⟨true, ["d", "real"]⟩ ⟨true, ["s", "_real"]⟩]) ∧
    normP (joinP (dirOf ⟨true, ["d", "real"]⟩) ⟨false, ["..", "s", "_real"]⟩)
      = ⟨true, ["s", "_real"]⟩ ∧
    ConfigSource.getFileClass ConfigSource.DEFAULT_CLASSES "_real"
      = .ok (.ignoreA, none) ∧
    ConfigSource.add cfg0 [([], [("real", mkAct .programmable [] "real.p.py" "real")])]
      [] "_real"
      = .ok [([], [("real", mkAct .programmable [] "real.p.py" "real")])] := by
  decide

/-- C5 counterexample: the destination exists at apply time, yet the run
reports nothing — the code compares the existing content first and stays
silent when it equals the desired content, instead of reporting "already
exists, not updated" without comparing. -/
theorem C5_counterexample :
    fsGet c5fs (BAct.destPath cfg0 c5act) = some (.file "X") ∧
    BAct.sync cfg0 c5fs c5act = .ok (c5fs, []) := by
  decide

/-- C5 (amended): when a copy-once destination exists as a regular file,
its content is never rewritten regardless of what it contains; the code
does compare contents, reporting "already exists, not updated" exactly
when they differ and staying silent when they already agree. -/
theorem C5_copyonce (cfg : Config) (a : BAct) (fs : FS) (t c : String)
    (hcls : a.cls = .copyOnceA) (htext : a.text = some t)
    (hdest : fsGet fs (BAct.destPath cfg a) = some (.file c)) :
    BAct.sync cfg fs a
      = .ok (fs, if c = t then []
                 else [.notUpdated (BAct.destPath cfg a)]) := by
  have hex : pexists fs (BAct.destPath cfg a) = true := by
    rw [pexists, presolve_file hdest]
    rfl
  have honce : a.cls.once = true := by rw [hcls]; rfl
  simp only [BAct.sync, hcls]
  simp only [TextAction.sync, islink, hdest, htext, hex, honce]
  by_cases hct : c = t
  · simp [hct]
  · simp [hct]

/-- Witness for C5: a copy-once destination holding `Y` while the source
text is `X` stays at `Y`, with only the "not updated" notice reported. -/
theorem C5_copyonce_witness :
    BAct.sync cfg0 [(⟨true, ["d", "y"]⟩, FNode.file "Y")]
      ⟨.copyOnceA, [], some "y.copyonce", "y", some "X"⟩
      = .ok ([(⟨true, ["d", "y"]⟩, FNode.file "Y")],
             if "Y" = "X" then []
             else [.notUpdated (BAct.destPath cfg0
               ⟨.copyOnceA, [], some "y.copyonce", "y", some "X"⟩)]) :=
  C5_copyonce cfg0 ⟨.copyOnceA, [], some "y.copyonce", "y", some "X"⟩
    [(⟨true, ["d", "y"]⟩, FNode.file "Y")] "X" "Y" rfl rfl (by decide)

theorem goodComps_append {l1 l2 : List String}
    (h1 : goodComps l1) (h2 : goodComps l2) : goodComps (l1 ++ l2) := by
  intro s hs
  rcases List.mem_append.mp hs with h | h
  · exact h1 s h
  · exact h2 s h

theorem goodComps_singleton {s : String} (h : goodName s) :
    goodComps [s] := by
  intro x hx
  rw [List.mem_singleton.mp hx]
  exact h

theorem joinP_rel (p : PPath) (l : List String) :
    joinP p ⟨false, l⟩ = ⟨p.abs, p.comps ++ l⟩ := by
  unfold joinP
  simp

theorem destPath_eq {cfg : Config} {a : BAct} (hg : GoodCfg cfg)
    (hrp : goodComps a.relpath) (hd : goodName a.dest) :
    BAct.destPath cfg a = ⟨true, cfg.dest.comps ++ (a.relpath ++ [a.dest])⟩ := by
  obtain ⟨_, habs, _, hgood⟩ := hg
  rw [BAct.destPath, joinP_rel, habs,
    normP_good (goodComps_append hgood
      (goodComps_append hrp (goodComps_singleton hd)))]

theorem sourcePath_eq {cfg : Config} {a : BAct} {s : String} (hg : GoodCfg cfg)
    (hrp : goodComps a.relpath) (hs : goodName s) :
    BAct.sourcePath cfg a s
      = ⟨true, cfg.source.comps ++ (a.relpath ++ [s])⟩ := by
  obtain ⟨habs, _, hgood, _⟩ := hg
  rw [BAct.sourcePath, joinP_rel, habs,
    normP_good (goodComps_append hgood
      (goodComps_append hrp (goodComps_singleton hs)))]

theorem dirOf_destPath {cfg : Config} {a : BAct} (hg : GoodCfg cfg)
    (hrp : goodComps a.relpath) (hd : goodName a.dest) :
    dirOf (BAct.destPath cfg a) = ⟨true, cfg.dest.comps ++ a.relpath⟩ := by
  rw [destPath_eq hg hrp hd, dirOf]
  have : cfg.dest.comps ++ (a.relpath ++ [a.dest])
      = (cfg.dest.comps ++ a.relpath) ++ [a.dest] := by
    rw [List.append_assoc]
  rw [this, List.dropLast_concat]

theorem symlink_sync_created {cfg : Config} {fs : FS} {a : BAct} {s : String}
    {fs1 : FS} {msgs : List Msg}
    (hs : a.source = some s)
    (hrun : SymlinkAction.sync cfg fs a = .ok (fs1, msgs))
    (hmem : Msg.createdLink (BAct.destPath cfg a) (BAct.sourcePath cfg a s)
      ∈ msgs) :
    fsGet fs1 (BAct.destPath cfg a)
      = some (.link (normP (relP (BAct.sourcePath cfg a s)
          (joinP cfg.dest ⟨false, a.relpath⟩)))) := by
  simp only [SymlinkAction.sync, hs] at hrun
  split at hrun
  · split at hrun
    · split at hrun
      · split at hrun
        · exact absurd hrun (by simp)
        · have hpair := Except.ok.inj hrun
          rw [Prod.mk.injEq] at hpair
          obtain ⟨h1, h2⟩ := hpair
          rw [← h1]
          exact fsGet_fsSet_self
      · rw [except_bind_ok] at hrun
        obtain ⟨sm, hsm, hrun⟩ := hrun
        split at hrun
        · have hpair := Except.ok.inj hrun
          rw [Prod.mk.injEq] at hpair
          obtain ⟨h1, h2⟩ := hpair
          rw [← h2] at hmem
          exact absurd hmem (List.not_mem_nil _)
        · split at hrun
          · exact absurd hrun (by simp)
          · have hpair := Except.ok.inj hrun
            rw [Prod.mk.injEq] at hpair
            obtain ⟨h1, h2⟩ := hpair
            rw [← h1]
            exact fsGet_fsSet_self
    · rw [except_bind_ok] at hrun
      obtain ⟨sc, hsc, hrun⟩ := hrun
      split at hrun
      · split at hrun
        · exact absurd hrun (by simp)
        · have hpair := Except.ok.inj hrun
          rw [Prod.mk.injEq] at hpair
          obtain ⟨h1, h2⟩ := hpair
          rw [← h1]
          exact fsGet_fsSet_self
      · exact absurd hrun (by simp)
  · have hpair := Except.ok.inj hrun
    rw [Prod.mk.injEq] at hpair
    obtain ⟨h1, h2⟩ := hpair
    rw [← h1]
    exact fsGet_fsSet_self

/-- C6: whenever `SymlinkAction.sync` reports creating a link, the literal
target it stored is a relative path — relative to the destination file's
own directory (the destination root joined with the entry's relative
directory): joining it back onto that directory and normalizing yields
exactly the source path. -/
theorem C6_relative_target (cfg : Config) (a : BAct) (fs fs1 : FS)
    (msgs : List Msg) (s : String)
    (hg : GoodCfg cfg) (hrp : goodComps a.relpath) (hd : goodName a.dest)
    (hs : a.source = some s) (hgs : goodName s)
    (hrun : SymlinkAction.sync cfg fs a = .ok (fs1, msgs))
    (hmem : Msg.createdLink (BAct.destPath cfg a) (BAct.sourcePath cfg a s)
      ∈ msgs) :
    ∃ tgt, fsGet fs1 (BAct.destPath cfg a) = some (.link tgt) ∧
      tgt.abs = false ∧
      normP (joinP (dirOf (BAct.destPath cfg a)) tgt)
        = BAct.sourcePath cfg a s := by
  have hget := symlink_sync_created hs hrun hmem
  refine ⟨_, hget, rfl, ?_⟩
  have hsrc := sourcePath_eq (a := a) (s := s) hg hrp hgs
  have hdir := dirOf_destPath (a := a) hg hrp hd
  have hjoin : joinP cfg.dest ⟨false, a.relpath⟩
      = ⟨true, cfg.dest.comps ++ a.relpath⟩ := by
    rw [joinP_rel, hg.2.1]
  have hgoodS : goodComps (cfg.source.comps ++ (a.relpath ++ [s])) :=
    goodComps_append hg.2.2.1
      (goodComps_append hrp (goodComps_singleton hgs))
  have hgoodD : goodComps (cfg.dest.comps ++ a.relpath) :=
    goodComps_append hg.2.2.2 hrp
  rw [hjoin, hdir, hsrc, relP_fix _ _ hgoodS hgoodD]
  exact joinP_relP _ _ hgoodS hgoodD

/-- Witness for C6: syncing source file `a` into an empty destination
creates `../s/a`, a relative target that resolves back to the source. -/
theorem C6_relative_target_witness :
    ∃ tgt, fsGet ((⟨true, ["d", "a"]⟩, FNode.link ⟨false, ["..", "s", "a"]⟩)
        :: [(⟨true, ["s", "a"]⟩, FNode.file "A")])
      (BAct.destPath cfg0 ⟨.symlinkA, [], some "a", "a", none⟩)
      = some (.link tgt) ∧
      tgt.abs = false ∧
      normP (joinP (dirOf (BAct.destPath cfg0 ⟨.symlinkA, [], some "a", "a", none⟩)) tgt)
        = BAct.sourcePath cfg0 ⟨.symlinkA, [], some "a", "a", none⟩ "a" :=
  C6_relative_target cfg0 ⟨.symlinkA, [], some "a", "a", none⟩
    [(⟨true, ["s", "a"]⟩, FNode.file "A")]
    ((⟨true, ["d", "a"]⟩, FNode.link ⟨false, ["..", "s", "a"]⟩)
      :: [(⟨true, ["s", "a"]⟩, FNode.file "A")])
    [.createdLink ⟨true, ["d", "a"]⟩ ⟨true, ["s", "a"]⟩] "a"
    (by decide) (by decide) (by decide) rfl (by decide) (by decide) (by decide)

theorem treeFind_set_self {t : CTree} {rp : List String} {fl : DirFiles} :
    treeFind (treeSetFiles t rp fl) rp = some fl := by
  induction t with
  | nil => rw [treeSetFiles, treeFind, if_pos rfl]
  | cons e rest ih =>
    by_cases he : e.1 = rp
    · rw [treeSetFiles, if_pos he, treeFind, if_pos rfl]
    · rw [treeSetFiles, if_neg he, treeFind, if_neg he]
      exact ih

theorem treeFind_set_ne {t : CTree} {rp rp' : List String} {fl : DirFiles}
    (h : rp' ≠ rp) :
    treeFind (treeSetFiles t rp fl) rp' = treeFind t rp' := by
  have hne : ¬(rp = rp') := fun hx => h hx.symm
  induction t with
  | nil => simp [treeSetFiles, treeFind, hne]
  | cons e rest ih =>
    by_cases he : e.1 = rp
    · have hne2 : ¬(e.1 = rp') := fun hx => absurd (hx.symm.trans he) h
      simp [treeSetFiles, he, treeFind, hne, hne2]
    · by_cases he' : e.1 = rp'
      · simp [treeSetFiles, he, treeFind, he', h]
      · simp [treeSetFiles, he, treeFind, he', ih]

theorem filesFind_append_some {fl l2 : DirFiles} {d : String} {x : Act}
    (h : filesFind fl d = some x) : filesFind (fl ++ l2) d = some x := by
  induction fl with
  | nil => exact absurd h (by simp [filesFind])
  | cons e rest ih =>
    by_cases he : e.1 = d
    · rw [filesFind, if_pos he] at h
      rw [List.cons_append, filesFind, if_pos he]
      exact h
    · rw [filesFind, if_neg he] at h
      rw [List.cons_append, filesFind, if_neg he]
      exact ih h

theorem filesFind_append_self {fl : DirFiles} {d : String} {a : Act}
    (h : filesFind fl d = none) : filesFind (fl ++ [(d, a)]) d = some a := by
  induction fl with
  | nil => simp [filesFind]
  | cons e rest ih =>
    by_cases he : e.1 = d
    · rw [filesFind, if_pos he] at h
      exact absurd h (by simp)
    · rw [filesFind, if_neg he] at h
      rw [List.cons_append, filesFind, if_neg he]
      exact ih h

theorem filesFind_none_not_mem {fl : DirFiles} {d : String}
    (h : filesFind fl d = none) : d ∉ fl.map Prod.fst := by
  induction fl with
  | nil => simp
  | cons e rest ih =>
    by_cases he : e.1 = d
    · rw [filesFind, if_pos he] at h
      exact absurd h (by simp)
    · rw [filesFind, if_neg he] at h
      simp only [List.map_cons, List.mem_cons]
      rintro (hd | hd)
      · exact he hd.symm
      · exact ih h hd

theorem treeFind_some_mem {t : CTree} {rp : List String} {fl : DirFiles}
    (h : treeFind t rp = some fl) : (rp, fl) ∈ t := by
  induction t with
  | nil => exact absurd h (by simp [treeFind])
  | cons e rest ih =>
    by_cases he : e.1 = rp
    · rw [treeFind, if_pos he] at h
      have : e = (rp, fl) := by
        obtain ⟨e1, e2⟩ := e
        have h2 : e2 = fl := Option.some.inj h
        have he1 : e1 = rp := he
        rw [he1, h2]
      rw [← this]
      exact List.mem_cons_self _ _
    · rw [treeFind, if_neg he] at h
      exact List.mem_cons_of_mem _ (ih h)

theorem treeFind_none_not_mem {t : CTree} {rp : List String}
    (h : treeFind t rp = none) : rp ∉ t.map Prod.fst := by
  induction t with
  | nil => simp
  | cons e rest ih =>
    by_cases he : e.1 = rp
    · rw [treeFind, if_pos he] at h
      exact absurd h (by simp)
    · rw [treeFind, if_neg he] at h
      simp only [List.map_cons, List.mem_cons]
      rintro (hd | hd)
      · exact he hd.symm
      · exact ih h hd

theorem mem_treeSetFiles {t : CTree} {rp : List String} {fl : DirFiles}
    {e : List String × DirFiles} (h : e ∈ treeSetFiles t rp fl) :
    e ∈ t ∨ e = (rp, fl) := by
  induction t with
  | nil =>
    rw [treeSetFiles] at h
    exact Or.inr (List.mem_singleton.mp h)
  | cons x rest ih =>
    by_cases hx : x.1 = rp
    · rw [treeSetFiles, if_pos hx] at h
      rcases List.mem_cons.mp h with hd | hd
      · exact Or.inr hd
      · exact Or.inl (List.mem_cons_of_mem _ hd)
    · rw [treeSetFiles, if_neg hx] at h
      rcases List.mem_cons.mp h with hd | hd
      · exact Or.inl (hd ▸ List.mem_cons_self _ _)
      · rcases ih hd with hm | hm
        · exact Or.inl (List.mem_cons_of_mem _ hm)
        · exact Or.inr hm

theorem treeSetFiles_map_fst_of_found {t : CTree} {rp : List String}
    {fl fl0 : DirFiles} (h : treeFind t rp = some fl0) :
    (treeSetFiles t rp fl).map Prod.fst = t.map Prod.fst := by
  induction t with
  | nil => exact absurd h (by simp [treeFind])
  | cons e rest ih =>
    by_cases he : e.1 = rp
    · rw [treeSetFiles, if_pos he]
      simp [he]
    · rw [treeFind, if_neg he] at h
      rw [treeSetFiles, if_neg he]
      simp [ih h]

theorem treeSetFiles_map_fst_of_none {t : CTree} {rp : List String}
    {fl : DirFiles} (h : treeFind t rp = none) :
    (treeSetFiles t rp fl).map Prod.fst = t.map Prod.fst ++ [rp] := by
  induction t with
  | nil => simp [treeSetFiles]
  | cons e rest ih =>
    by_cases he : e.1 = rp
    · rw [treeFind, if_pos he] at h
      exact absurd h (by simp)
    · rw [treeFind, if_neg he] at h
      rw [treeSetFiles, if_neg he]
      simp [ih h]

theorem getFileClass_default_total (f : String) :
    ∃ r, ConfigSource.getFileClass ConfigSource.DEFAULT_CLASSES f = .ok r := by
  simp only [ConfigSource.DEFAULT_CLASSES, ConfigSource.getFileClass,
    Action.matches, matchSuffix, Bind.bind, Except.bind]
  split_ifs <;> exact ⟨_, rfl⟩

theorem except_bind_err {α β : Type} {e : Except Err α} {k : α → Except Err β}
    {er : Err} : (e >>= k) = .error er ↔
      e = .error er ∨ ∃ x, e = .ok x ∧ k x = .error er := by
  cases e <;> simp [Bind.bind, Except.bind]

theorem addResolved_mono {t t1 : CTree} {rp rp' : List String}
    {f d d' : String} {c : ACls}
    (h : ConfigSource.addResolved t rp f c d = .ok t1)
    (hocc : (lookupActT t rp' d').isSome) : (lookupActT t1 rp' d').isSome := by
  unfold ConfigSource.addResolved at h
  simp only [] at h
  cases hff : filesFind ((treeFind t rp).getD []) d with
  | some x => rw [hff] at h; exact absurd h (by simp)
  | none =>
    rw [hff] at h
    have ht1 := (Except.ok.inj h).symm
    rw [ht1]
    by_cases hrp : rp' = rp
    · subst hrp
      unfold lookupActT at hocc ⊢
      rw [treeFind_set_self]
      cases htf : treeFind t rp' with
      | none => rw [htf] at hocc; exact absurd hocc (by simp)
      | some fl =>
        rw [htf] at hocc
        have hx : ∃ x, filesFind fl d' = some x :=
          Option.isSome_iff_exists.mp hocc
        obtain ⟨x, hx⟩ := hx
        show (filesFind (fl ++ [(d, mkAct c rp' f d)]) d').isSome = true
        rw [filesFind_append_some hx]
        rfl
    · unfold lookupActT at hocc ⊢
      rw [treeFind_set_ne hrp]
      exact hocc

theorem addResolved_occupies {t t1 : CTree} {rp : List String}
    {f d : String} {c : ACls}
    (h : ConfigSource.addResolved t rp f c d = .ok t1) :
    (lookupActT t1 rp d).isSome := by
  unfold ConfigSource.addResolved at h
  simp only [] at h
  cases hff : filesFind ((treeFind t rp).getD []) d with
  | some x => rw [hff] at h; exact absurd h (by simp)
  | none =>
    rw [hff] at h
    have ht1 := (Except.ok.inj h).symm
    rw [ht1]
    unfold lookupActT
    rw [treeFind_set_self]
    show (filesFind ((treeFind t rp).getD [] ++ [(d, mkAct c rp f d)])
      d).isSome = true
    rw [filesFind_append_self hff]
    rfl

theorem addResolved_conflict_of_occupied {t : CTree} {rp : List String}
    {f d : String} {c : ACls} (hocc : (lookupActT t rp d).isSome) :
    ∃ ex, ConfigSource.addResolved t rp f c d
      = .error (.conflictErr f ex) := by
  unfold lookupActT at hocc
  cases htf : treeFind t rp with
  | none => rw [htf] at hocc; exact absurd hocc (by simp)
  | some fl =>
    rw [htf] at hocc
    have hx : ∃ x, filesFind fl d = some x :=
      Option.isSome_iff_exists.mp hocc
    obtain ⟨x, hx⟩ := hx
    refine ⟨x.base.source, ?_⟩
    unfold ConfigSource.addResolved
    simp only []
    rw [htf, Option.getD_some, hx]

theorem addResolved_err {t : CTree} {rp : List String} {f d : String}
    {c : ACls} {e : Err}
    (h : ConfigSource.addResolved t rp f c d = .error e) :
    ∃ ex, e = .conflictErr f ex := by
  unfold ConfigSource.addResolved at h
  simp only [] at h
  cases hff : filesFind ((treeFind t rp).getD []) d with
  | some x =>
    rw [hff] at h
    exact ⟨x.base.source, (Except.error.inj h).symm⟩
  | none => rw [hff] at h; exact absurd h (by simp)

theorem add_mono {cfg : Config} {t t1 : CTree} {rp rp' : List String}
    {f d' : String} (h : ConfigSource.add cfg t rp f = .ok t1)
    (hocc : (lookupActT t rp' d').isSome) : (lookupActT t1 rp' d').isSome := by
  unfold ConfigSource.add at h
  rw [except_bind_ok] at h
  obtain ⟨r, hr, h⟩ := h
  cases hd : r.2 with
  | none =>
    rw [hd] at h
    rw [← Except.ok.inj h]
    exact hocc
  | some d =>
    rw [hd] at h
    exact addResolved_mono h hocc

theorem add_occupies {cfg : Config} {t t1 : CTree} {rp : List String}
    {f d : String} {c : ACls}
    (hclf : ConfigSource.getFileClass cfg.classes f = .ok (c, some d))
    (h : ConfigSource.add cfg t rp f = .ok t1) :
    (lookupActT t1 rp d).isSome := by
  unfold ConfigSource.add at h
  rw [except_bind_ok] at h
  obtain ⟨r, hr, h⟩ := h
  rw [hclf] at hr
  rw [← Except.ok.inj hr] at h
  exact addResolved_occupies h

theorem add_err_conflict {cfg : Config} {t : CTree} {rp : List String}
    {f : String} {e : Err}
    (hcls : cfg.classes = ConfigSource.DEFAULT_CLASSES)
    (h : ConfigSource.add cfg t rp f = .error e) :
    ∃ ex, e = .conflictErr f ex := by
  unfold ConfigSource.add at h
  rw [except_bind_err] at h
  rcases h with h | ⟨r, hr, h⟩
  · obtain ⟨r, hr⟩ := getFileClass_default_total f
    rw [hcls] at h
    rw [hr] at h
    exact absurd h (by simp)
  · cases hd : r.2 with
    | none => rw [hd] at h; exact absurd h (by simp)
    | some d => rw [hd] at h; exact addResolved_err h

theorem analyze_mono {cfg : Config} :
    ∀ {entries : List (List String × String)} {t t1 : CTree}
      {rp' : List String} {d' : String},
      ConfigSource.analyze cfg entries t = .ok t1 →
      (lookupActT t rp' d').isSome → (lookupActT t1 rp' d').isSome := by
  intro entries
  induction entries with
  | nil =>
    intro t t1 rp' d' h hocc
    rw [← Except.ok.inj h]
    exact hocc
  | cons e rest ih =>
    intro t t1 rp' d' h hocc
    obtain ⟨rp, f⟩ := e
    rw [ConfigSource.analyze, except_bind_ok] at h
    obtain ⟨t2, ht2, h⟩ := h
    exact ih h (add_mono ht2 hocc)

theorem analyze_err_conflict {cfg : Config}
    (hcls : cfg.classes = ConfigSource.DEFAULT_CLASSES) :
    ∀ {entries : List (List String × String)} {t : CTree} {e : Err},
      ConfigSource.analyze cfg entries t = .error e →
      ∃ f ex, e = .conflictErr f ex := by
  intro entries
  induction entries with
  | nil =>
    intro t e h
    exact absurd h (by simp [ConfigSource.analyze])
  | cons ent rest ih =>
    intro t e h
    obtain ⟨rp, f⟩ := ent
    rw [ConfigSource.analyze, except_bind_err] at h
    rcases h with h | ⟨t2, ht2, h⟩
    · obtain ⟨ex, hex⟩ := add_err_conflict hcls h
      exact ⟨f, ex, hex⟩
    · exact ih h

theorem analyze_conflict_of_occupied {cfg : Config}
    (hcls : cfg.classes = ConfigSource.DEFAULT_CLASSES) :
    ∀ {entries : List (List String × String)} {t : CTree}
      {rp : List String} {d f2 : String} {c2 : ACls},
      (lookupActT t rp d).isSome → (rp, f2) ∈ entries →
      ConfigSource.getFileClass cfg.classes f2 = .ok (c2, some d) →
      ∃ fn ex, ConfigSource.analyze cfg entries t
        = .error (.conflictErr fn ex) := by
  intro entries
  induction entries with
  | nil =>
    intro t rp d f2 c2 _ hmem _
    exact absurd hmem (List.not_mem_nil _)
  | cons ent rest ih =>
    intro t rp d f2 c2 hocc hmem hclf
    obtain ⟨rp0, f0⟩ := ent
    rcases List.mem_cons.mp hmem with heq | hmem'
    · injection heq with hrp0 hf0
      subst hrp0
      subst hf0
      obtain ⟨ex, hres⟩ :=
        addResolved_conflict_of_occupied (f := f2) (c := c2) hocc
      have hadd : ConfigSource.add cfg t rp f2
          = .error (.conflictErr f2 ex) := by
        unfold ConfigSource.add
        rw [hclf]
        simp only [Bind.bind, Except.bind]
        exact hres
      refine ⟨f2, ex, ?_⟩
      rw [ConfigSource.analyze, hadd]
      rfl
    · cases hadd : ConfigSource.add cfg t rp0 f0 with
      | error e2 =>
        obtain ⟨ex, hex⟩ := add_err_conflict hcls hadd
        refine ⟨f0, ex, ?_⟩
        rw [ConfigSource.analyze, hadd, hex]
        rfl
      | ok t2 =>
        obtain ⟨fn, ex, hres⟩ := ih (add_mono hadd hocc) hmem' hclf
        refine ⟨fn, ex, ?_⟩
        rw [ConfigSource.analyze, hadd]
        simp only [Bind.bind, Except.bind]
        exact hres

theorem nodup_snoc {α : Type} {l : List α} {x : α}
    (hl : l.Nodup) (hx : x ∉ l) : (l ++ [x]).Nodup := by
  rw [List.nodup_append]
  refine ⟨hl, List.nodup_singleton x, ?_⟩
  intro a ha hax
  rw [List.mem_singleton.mp hax] at ha
  exact hx ha

theorem addResolved_WF {t t1 : CTree} {rp : List String} {f d : String}
    {c : ACls} (hwf : TreeWF t)
    (h : ConfigSource.addResolved t rp f c d = .ok t1) : TreeWF t1 := by
  unfold ConfigSource.addResolved at h
  simp only [] at h
  cases hff : filesFind ((treeFind t rp).getD []) d with
  | some x => rw [hff] at h; exact absurd h (by simp)
  | none =>
    rw [hff] at h
    have ht1 := (Except.ok.inj h).symm
    rw [ht1]
    constructor
    · cases htf : treeFind t rp with
      | some fl0 =>
        rw [treeSetFiles_map_fst_of_found htf]
        exact hwf.1
      | none =>
        rw [treeSetFiles_map_fst_of_none htf]
        exact nodup_snoc hwf.1 (treeFind_none_not_mem htf)
    · intro e he
      rcases mem_treeSetFiles he with hmem | heq
      · exact hwf.2 e hmem
      · rw [heq]
        simp only [List.map_append, List.map_cons, List.map_nil]
        cases htf : treeFind t rp with
        | some fl0 =>
          show (fl0.map Prod.fst ++ [d]).Nodup
          rw [htf] at hff
          have hff2 : filesFind fl0 d = none := hff
          exact nodup_snoc (hwf.2 (rp, fl0) (treeFind_some_mem htf))
            (filesFind_none_not_mem hff2)
        | none =>
          show (([] : List String) ++ [d]).Nodup
          simp

theorem add_WF {cfg : Config} {t t1 : CTree} {rp : List String} {f : String}
    (hwf : TreeWF t) (h : ConfigSource.add cfg t rp f = .ok t1) :
    TreeWF t1 := by
  unfold ConfigSource.add at h
  rw [except_bind_ok] at h
  obtain ⟨r, hr, h⟩ := h
  cases hd : r.2 with
  | none =>
    rw [hd] at h
    rw [← Except.ok.inj h]
    exact hwf
  | some d =>
    rw [hd] at h
    exact addResolved_WF hwf h

theorem analyze_WF {cfg : Config} :
    ∀ {entries : List (List String × String)} {t t1 : CTree},
      TreeWF t → ConfigSource.analyze cfg entries t = .ok t1 → TreeWF t1 := by
  intro entries
  induction entries with
  | nil =>
    intro t t1 hwf h
    rw [← Except.ok.inj h]
    exact hwf
  | cons ent rest ih =>
    intro t t1 hwf h
    obtain ⟨rp, f⟩ := ent
    rw [ConfigSource.analyze, except_bind_ok] at h
    obtain ⟨t2, ht2, h⟩ := h
    exact ih (add_WF hwf ht2) h

theorem analyze_append {cfg : Config} :
    ∀ (l1 l2 : List (List String × String)) (t : CTree),
      ConfigSource.analyze cfg (l1 ++ l2) t
        = match ConfigSource.analyze cfg l1 t with
          | .error e => .error e
          | .ok t1 => ConfigSource.analyze cfg l2 t1 := by
  intro l1
  induction l1 with
  | nil => intro l2 t; rfl
  | cons e rest ih =>
    intro l2 t
    obtain ⟨rp, f⟩ := e
    rw [List.cons_append, ConfigSource.analyze, ConfigSource.analyze]
    cases hadd : ConfigSource.add cfg t rp f with
    | error e1 => simp [Bind.bind, Except.bind]
    | ok t1 => simp [Bind.bind, Except.bind, ih]

/-- C3: under the default registry, if two distinct walk entries of the
same relative directory both classify to the same destination name, the
walk phase itself fails with a conflict error, so `sync` returns with the
filesystem untouched and no action ever checked or synced; and every tree
that `analyze` does build keeps at most one action per (relative
directory, destination name) pair. -/
theorem C3_conflict_detected (cfg : Config)
    (hcls : cfg.classes = ConfigSource.DEFAULT_CLASSES)
    (l1 l2 : List (List String × String)) (rp : List String)
    (f1 f2 : String) (c1 c2 : ACls) (d : String)
    (ev : String → SRes) (fs : FS)
    (entries : List (List String × String)) (t : CTree)
    (h2 : (rp, f2) ∈ l2)
    (g1 : ConfigSource.getFileClass cfg.classes f1 = .ok (c1, some d))
    (g2 : ConfigSource.getFileClass cfg.classes f2 = .ok (c2, some d))
    (hAok : ConfigSource.analyze cfg entries [] = .ok t) :
    (∃ fn ex,
      ConfigSource.analyze cfg (l1 ++ (rp, f1) :: l2) []
        = .error (.conflictErr fn ex) ∧
      ConfigSource.sync cfg ev (l1 ++ (rp, f1) :: l2) fs
        = (fs, [], some (.conflictErr fn ex))) ∧
    TreeWF t := by
  have hwfnil : TreeWF ([] : CTree) := ⟨by simp, by simp⟩
  have hwf : TreeWF t := analyze_WF hwfnil hAok
  have hAn : ∃ fn ex, ConfigSource.analyze cfg (l1 ++ (rp, f1) :: l2) []
      = .error (.conflictErr fn ex) := by
    cases hA : ConfigSource.analyze cfg l1 ([] : CTree) with
    | error e1 =>
      obtain ⟨fn, ex, hex⟩ := analyze_err_conflict hcls hA
      refine ⟨fn, ex, ?_⟩
      rw [analyze_append, hA, hex]
    | ok t0 =>
      cases hadd : ConfigSource.add cfg t0 rp f1 with
      | error e1 =>
        obtain ⟨ex, hex⟩ := add_err_conflict hcls hadd
        refine ⟨f1, ex, ?_⟩
        rw [analyze_append, hA]
        show ConfigSource.analyze cfg ((rp, f1) :: l2) t0
          = .error (.conflictErr f1 ex)
        rw [ConfigSource.analyze, hadd, hex]
        rfl
      | ok t1 =>
        have hocc := add_occupies g1 hadd
        obtain ⟨fn, ex, hres⟩ :=
          analyze_conflict_of_occupied hcls hocc h2 g2
        refine ⟨fn, ex, ?_⟩
        rw [analyze_append, hA]
        show ConfigSource.analyze cfg ((rp, f1) :: l2) t0
          = .error (.conflictErr fn ex)
        rw [ConfigSource.analyze, hadd]
        simp only [Bind.bind, Except.bind]
        exact hres
  obtain ⟨fn, ex, hfe⟩ := hAn
  refine ⟨⟨fn, ex, hfe, ?_⟩, hwf⟩
  unfold ConfigSource.sync
  rw [hfe]

/-- Witness for C3: the plain file `a` and the copy-marked `a.copy` in
the same directory both resolve to destination `a`, and the run aborts
with a conflict. -/
theorem C3_conflict_detected_witness :
    (∃ fn ex,
      ConfigSource.analyze cfg0 ([] ++ ([], "a") :: [([], "a.copy")]) []
        = .error (.conflictErr fn ex) ∧
      ConfigSource.sync cfg0 ev0 ([] ++ ([], "a") :: [([], "a.copy")]) []
        = ([], [], some (.conflictErr fn ex))) ∧
    TreeWF [] :=
  C3_conflict_detected cfg0 rfl [] [([], "a.copy")] [] "a" "a.copy"
    .symlinkA .copyA "a" ev0 [] [] [] (by decide) (by decide) (by decide) rfl

theorem presolve_none {fs : FS} {p : PPath} (h : fsGet fs p = none) :
    presolve fs p = none := by
  unfold presolve
  rw [resolveFuel, h]

theorem relsource_resolves {cfg : Config} {a : BAct} {s : String}
    (hg : GoodCfg cfg) (hrp : goodComps a.relpath) (hd : goodName a.dest)
    (hgs : goodName s) :
    normP (joinP (dirOf (BAct.destPath cfg a))
        (normP (relP (BAct.sourcePath cfg a s)
          (joinP cfg.dest ⟨false, a.relpath⟩))))
      = BAct.sourcePath cfg a s := by
  have hsrc := sourcePath_eq (a := a) (s := s) hg hrp hgs
  have hdir := dirOf_destPath (a := a) hg hrp hd
  have hjoin : joinP cfg.dest ⟨false, a.relpath⟩
      = ⟨true, cfg.dest.comps ++ a.relpath⟩ := by
    rw [joinP_rel, hg.2.1]
  have hgoodS : goodComps (cfg.source.comps ++ (a.relpath ++ [s])) :=
    goodComps_append hg.2.2.1
      (goodComps_append hrp (goodComps_singleton hgs))
  have hgoodD : goodComps (cfg.dest.comps ++ a.relpath) :=
    goodComps_append hg.2.2.2 hrp
  rw [hjoin, hdir, hsrc, relP_fix _ _ hgoodS hgoodD]
  exact joinP_relP _ _ hgoodS hgoodD

theorem symlinkSync_final {cfg : Config} {a : BAct} {fs1 : FS} {s c : String}
    (hs : a.source = some s)
    (hlink : fsGet fs1 (BAct.destPath cfg a)
      = some (.link (normP (relP (BAct.sourcePath cfg a s)
          (joinP cfg.dest ⟨false, a.relpath⟩)))))
    (hsrc : fsGet fs1 (BAct.sourcePath cfg a s) = some (.file c))
    (hres : normP (joinP (dirOf (BAct.destPath cfg a))
        (normP (relP (BAct.sourcePath cfg a s)
          (joinP cfg.dest ⟨false, a.relpath⟩))))
      = BAct.sourcePath cfg a s) :
    SymlinkAction.sync cfg fs1 a = .ok (fs1, []) := by
  have hlex : lexists fs1 (BAct.destPath cfg a) = true := by
    simp [lexists, hlink]
  have hisl : islink fs1 (BAct.destPath cfg a) = true := by
    simp [islink, hlink]
  have hpres : presolve fs1 (BAct.destPath cfg a)
      = some (BAct.sourcePath cfg a s) :=
    presolve_link_file hlink hres hsrc
  have hpex : pexists fs1 (BAct.destPath cfg a) = true := by
    rw [pexists, hpres]
    rfl
  have hsf : samefileE fs1 (BAct.destPath cfg a) (BAct.sourcePath cfg a s)
      = .ok true := by
    unfold samefileE
    rw [hpres, presolve_file hsrc]
    simp
  simp [SymlinkAction.sync, hs, hlex, hisl, hpex, hsf, Bind.bind, Except.bind]

theorem symlinkSync_cases {cfg : Config} {a : BAct} {fs fs1 : FS}
    {m : List Msg} {s : String}
    (hs : a.source = some s)
    (h1 : SymlinkAction.sync cfg fs a = .ok (fs1, m)) :
    (fs1 = fs ∧ m = []) ∨
      (fsGet fs1 (BAct.destPath cfg a)
        = some (.link (normP (relP (BAct.sourcePath cfg a s)
            (joinP cfg.dest ⟨false, a.relpath⟩)))) ∧
       ∀ q, q ≠ BAct.destPath cfg a → fsGet fs1 q = fsGet fs q) := by
  simp only [SymlinkAction.sync, hs] at h1
  split at h1
  · split at h1
    · split at h1
      · split at h1
        · exact absurd h1 (by simp)
        · have hpair := Except.ok.inj h1
          rw [Prod.mk.injEq] at hpair
          obtain ⟨hf, hm⟩ := hpair
          refine Or.inr ⟨?_, ?_⟩
          · rw [← hf]
            exact fsGet_fsSet_self
          · intro q hq
            rw [← hf, fsGet_fsSet_ne hq, fsGet_fsDel_ne hq]
      · rw [except_bind_ok] at h1
        obtain ⟨sm, hsm, h1⟩ := h1
        split at h1
        · have hpair := Except.ok.inj h1
          rw [Prod.mk.injEq] at hpair
          exact Or.inl ⟨hpair.1.symm, hpair.2.symm⟩
        · split at h1
          · exact absurd h1 (by simp)
          · have hpair := Except.ok.inj h1
            rw [Prod.mk.injEq] at hpair
            obtain ⟨hf, hm⟩ := hpair
            refine Or.inr ⟨?_, ?_⟩
            · rw [← hf]
              exact fsGet_fsSet_self
            · intro q hq
              rw [← hf, fsGet_fsSet_ne hq, fsGet_fsDel_ne hq]
    · rw [except_bind_ok] at h1
      obtain ⟨sc, hsc, h1⟩ := h1
      split at h1
      · split at h1
        · exact absurd h1 (by simp)
        · have hpair := Except.ok.inj h1
          rw [Prod.mk.injEq] at hpair
          obtain ⟨hf, hm⟩ := hpair
          refine Or.inr ⟨?_, ?_⟩
          · rw [← hf]
            exact fsGet_fsSet_self
          · intro q hq
            rw [← hf, fsGet_fsSet_ne hq, fsGet_fsDel_ne hq]
      · exact absurd h1 (by simp)
  · have hpair := Except.ok.inj h1
    rw [Prod.mk.injEq] at hpair
    obtain ⟨hf, hm⟩ := hpair
    refine Or.inr ⟨?_, ?_⟩
    · rw [← hf]
      exact fsGet_fsSet_self
    · intro q hq
      rw [← hf, fsGet_fsSet_ne hq]

theorem symlinkSync_idem {cfg : Config} {a : BAct} {fs fs1 : FS}
    {m : List Msg} {s c : String}
    (hg : GoodCfg cfg) (hrp : goodComps a.relpath) (hd : goodName a.dest)
    (hs : a.source = some s) (hgs : goodName s)
    (hsrc : fsGet fs (BAct.sourcePath cfg a s) = some (.file c))
    (hne : BAct.sourcePath cfg a s ≠ BAct.destPath cfg a)
    (h1 : SymlinkAction.sync cfg fs a = .ok (fs1, m)) :
    ∃ m2, SymlinkAction.sync cfg fs1 a = .ok (fs1, m2) ∧
      m2.all (fun x => !x.isMutation) = true := by
  rcases symlinkSync_cases hs h1 with ⟨hf, hm⟩ | ⟨hlink, hframe⟩
  · refine ⟨[], ?_, rfl⟩
    rw [hf]
    rw [hf, hm] at h1
    exact h1
  · have hres := relsource_resolves (a := a) (s := s) hg hrp hd hgs
    have hsrc1 : fsGet fs1 (BAct.sourcePath cfg a s) = some (.file c) := by
      rw [hframe _ hne]
      exact hsrc
    exact ⟨[], symlinkSync_final hs hlink hsrc1 hres, rfl⟩

theorem textSync_idem {cfg : Config} {a : BAct} {fs fs1 : FS} {m : List Msg}
    (h1 : TextAction.sync cfg fs a = .ok (fs1, m)) :
    ∃ m2, TextAction.sync cfg fs1 a = .ok (fs1, m2) ∧
      m2.all (fun x => !x.isMutation) = true := by
  cases hlink : islink fs (BAct.destPath cfg a) with
  | true =>
    exfalso
    simp [TextAction.sync, hlink] at h1
  | false =>
    cases htext : a.text with
    | none =>
      exfalso
      simp [TextAction.sync, hlink, htext] at h1
    | some t =>
      cases hget : fsGet fs (BAct.destPath cfg a) with
      | none =>
        have hex : pexists fs (BAct.destPath cfg a) = false := by
          rw [pexists, presolve_none hget]
          rfl
        by_cases hct : ("" : String) = t
        · subst hct
          have hrun : TextAction.sync cfg fs a
              = .ok (fsSet fs (BAct.destPath cfg a) (.file ""), []) := by
            simp [TextAction.sync, hlink, htext, hget]
          rw [hrun] at h1
          have hpair := Except.ok.inj h1
          rw [Prod.mk.injEq] at hpair
          obtain ⟨hf, hm⟩ := hpair
          refine ⟨[], ?_, rfl⟩
          rw [← hf]
          have hget2 : fsGet (fsSet fs (BAct.destPath cfg a) (.file ""))
              (BAct.destPath cfg a) = some (.file "") := fsGet_fsSet_self
          have hlink2 : islink (fsSet fs (BAct.destPath cfg a) (.file ""))
              (BAct.destPath cfg a) = false := by
            simp [islink, hget2]
          simp [TextAction.sync, hlink2, htext, hget2]
        · have hrun : TextAction.sync cfg fs a
              = .ok (fsSet (fsSet fs (BAct.destPath cfg a) (.file ""))
                      (BAct.destPath cfg a) (.file t),
                     [.updatedFile (BAct.destPath cfg a)]) := by
            simp [TextAction.sync, hlink, htext, hget, hct, hex]
          rw [hrun] at h1
          have hpair := Except.ok.inj h1
          rw [Prod.mk.injEq] at hpair
          obtain ⟨hf, hm⟩ := hpair
          refine ⟨[], ?_, rfl⟩
          rw [← hf]
          have hget2 : fsGet (fsSet (fsSet fs (BAct.destPath cfg a) (.file ""))
              (BAct.destPath cfg a) (.file t))
              (BAct.destPath cfg a) = some (.file t) := fsGet_fsSet_self
          have hlink2 : islink (fsSet (fsSet fs (BAct.destPath cfg a) (.file ""))
              (BAct.destPath cfg a) (.file t))
              (BAct.destPath cfg a) = false := by
            simp [islink, hget2]
          simp [TextAction.sync, hlink2, htext, hget2]
      | some node =>
        cases node with
        | link tgt =>
          exfalso
          simp [islink, hget] at hlink
        | file c =>
          have hex : pexists fs (BAct.destPath cfg a) = true := by
            rw [pexists, presolve_file hget]
            rfl
          by_cases hct : c = t
          · subst hct
            have hrun : TextAction.sync cfg fs a = .ok (fs, []) := by
              simp [TextAction.sync, hlink, htext, hget]
            rw [hrun] at h1
            have hpair := Except.ok.inj h1
            rw [Prod.mk.injEq] at hpair
            obtain ⟨hf, hm⟩ := hpair
            refine ⟨[], ?_, rfl⟩
            rw [← hf]
            exact hrun
          · cases honce : a.cls.once with
            | true =>
              have hrun : TextAction.sync cfg fs a
                  = .ok (fs, [.notUpdated (BAct.destPath cfg a)]) := by
                simp [TextAction.sync, hlink, htext, hget, hct, hex, honce]
              rw [hrun] at h1
              have hpair := Except.ok.inj h1
              rw [Prod.mk.injEq] at hpair
              obtain ⟨hf, hm⟩ := hpair
              refine ⟨[.notUpdated (BAct.destPath cfg a)], ?_, ?_⟩
              · rw [← hf]
                exact hrun
              · simp [Msg.isMutation]
            | false =>
              have hrun : TextAction.sync cfg fs a
                  = .ok (fsSet fs (BAct.destPath cfg a) (.file t),
                         [.updatedFile (BAct.destPath cfg a)]) := by
                simp [TextAction.sync, hlink, htext, hget, hct, hex, honce]
              rw [hrun] at h1
              have hpair := Except.ok.inj h1
              rw [Prod.mk.injEq] at hpair
              obtain ⟨hf, hm⟩ := hpair
              refine ⟨[], ?_, rfl⟩
              rw [← hf]
              have hget2 : fsGet (fsSet fs (BAct.destPath cfg a) (.file t))
                  (BAct.destPath cfg a) = some (.file t) := fsGet_fsSet_self
              have hlink2 : islink (fsSet fs (BAct.destPath cfg a) (.file t))
                  (BAct.destPath cfg a) = false := by
                simp [islink, hget2]
              simp [TextAction.sync, hlink2, htext, hget2]

/-- C2 counterexample: running `sync()` twice on this source tree and
destination — with no external change in between — is not idempotent:
both runs succeed, but the second run alters the filesystem again
(reporting "Link target altered" and a creation), because the first run
retargeted `/d/b`, through which `/d/a`'s preexisting link chain had
resolved. -/
theorem C2_counterexample :
    ConfigSource.sync cfg0 ev0 c2ents c2fs0
      = (c2fs1, [.linkAltered,
          .createdLink ⟨true, ["d", "b"]⟩ ⟨true, ["s", "b"]⟩], none) ∧
    ConfigSource.sync cfg0 ev0 c2ents c2fs1
      = (c2fs2, [.linkAltered,
          .createdLink ⟨true, ["d", "a"]⟩ ⟨true, ["s", "a"]⟩], none) ∧
    c2fs2 ≠ c2fs1 ∧
    ([Msg.linkAltered,
      Msg.createdLink ⟨true, ["d", "a"]⟩ ⟨true, ["s", "a"]⟩].any
        Msg.isMutation) = true := by
  decide

/-- C2 (amended): each single action's apply is idempotent — if one run
of an action's `sync` succeeds then immediately rerunning that same
action's `sync` leaves the filesystem unchanged and reports no mutation
(for symlink actions, provided the source is a regular file, the roots
are well formed, and source and destination paths differ).  Whole-run
idempotence fails only when a preexisting destination symlink resolves
through another action's destination, as in the counterexample. -/
theorem C2_action_idempotent (cfg : Config) (a : BAct) (fs fs1 : FS)
    (m : List Msg)
    (hg : GoodCfg cfg) (hrp : goodComps a.relpath) (hd : goodName a.dest)
    (hsym : a.cls = .symlinkA → ∃ s c, a.source = some s ∧ goodName s ∧
      fsGet fs (BAct.sourcePath cfg a s) = some (.file c) ∧
      BAct.sourcePath cfg a s ≠ BAct.destPath cfg a)
    (h1 : BAct.sync cfg fs a = .ok (fs1, m)) :
    ∃ m2, BAct.sync cfg fs1 a = .ok (fs1, m2) ∧
      m2.all (fun x => !x.isMutation) = true := by
  cases hcl : a.cls with
  | programmable => exact absurd h1 (by simp [BAct.sync, hcl])
  | ignoreA => exact absurd h1 (by simp [BAct.sync, hcl])
  | symlinkA =>
    obtain ⟨s, c, hs, hgs, hsrc, hne⟩ := hsym hcl
    have hdisp : ∀ fsx, BAct.sync cfg fsx a = SymlinkAction.sync cfg fsx a :=
      fun fsx => by simp [BAct.sync, hcl]
    rw [hdisp] at h1
    obtain ⟨m2, hrun, hall⟩ := symlinkSync_idem hg hrp hd hs hgs hsrc hne h1
    refine ⟨m2, ?_, hall⟩
    rw [hdisp]
    exact hrun
  | textA =>
    have hdisp : ∀ fsx, BAct.sync cfg fsx a = TextAction.sync cfg fsx a :=
      fun fsx => by simp [BAct.sync, hcl]
    rw [hdisp] at h1
    obtain ⟨m2, hrun, hall⟩ := textSync_idem h1
    refine ⟨m2, ?_, hall⟩
    rw [hdisp]
    exact hrun
  | copyA =>
    have hdisp : ∀ fsx, BAct.sync cfg fsx a = TextAction.sync cfg fsx a :=
      fun fsx => by simp [BAct.sync, hcl]
    rw [hdisp] at h1
    obtain ⟨m2, hrun, hall⟩ := textSync_idem h1
    refine ⟨m2, ?_, hall⟩
    rw [hdisp]
    exact hrun
  | copyOnceA =>
    have hdisp : ∀ fsx, BAct.sync cfg fsx a = TextAction.sync cfg fsx a :=
      fun fsx => by simp [BAct.sync, hcl]
    rw [hdisp] at h1
    obtain ⟨m2, hrun, hall⟩ := textSync_idem h1
    refine ⟨m2, ?_, hall⟩
    rw [hdisp]
    exact hrun
  | emptyA =>
    have hdisp : ∀ fsx, BAct.sync cfg fsx a = TextAction.sync cfg fsx a :=
      fun fsx => by simp [BAct.sync, hcl]
    rw [hdisp] at h1
    obtain ⟨m2, hrun, hall⟩ := textSync_idem h1
    refine ⟨m2, ?_, hall⟩
    rw [hdisp]
    exact hrun

/-- Witness for C2 (amended): creating the symlink for source `a` into an
empty destination, then rerunning that action's sync, changes nothing
and reports nothing. -/
theorem C2_action_idempotent_witness :
    ∃ m2, BAct.sync cfg0
        ((⟨true, ["d", "a"]⟩, FNode.link ⟨false, ["..", "s", "a"]⟩)
          :: [(⟨true, ["s", "a"]⟩, FNode.file "A")])
        ⟨.symlinkA, [], some "a", "a", none⟩
      = .ok ((⟨true, ["d", "a"]⟩, FNode.link ⟨false, ["..", "s", "a"]⟩)
          :: [(⟨true, ["s", "a"]⟩, FNode.file "A")], m2) ∧
      m2.all (fun x => !x.isMutation) = true :=
  C2_action_idempotent cfg0 ⟨.symlinkA, [], some "a", "a", none⟩
    [(⟨true, ["s", "a"]⟩, FNode.file "A")]
    ((⟨true, ["d", "a"]⟩, FNode.link ⟨false, ["..", "s", "a"]⟩)
      :: [(⟨true, ["s", "a"]⟩, FNode.file "A")])
    [.createdLink ⟨true, ["d", "a"]⟩ ⟨true, ["s", "a"]⟩]
    (by decide) (by decide) (by decide)
    (fun _ => ⟨"a", "A", rfl, by decide, by decide, by decide⟩)
    (by decide)
